import Mathlib

/-!
Verification of the wyebot multi-agent code-review orchestrator
(`.pi/extensions/code-review.ts`).

The development shallowly embeds the algorithmic core of the extension:
the concurrency-limited task runner (`mapWithConcurrencyLimit`), the
review-output JSON extraction (`parseReviewOutput`), the similarity-based
findings consolidator (`consolidateFindings` / `findingSimilarity`), the
final-output extraction (`getFinalOutput`), and the report formatter
(`formatReport`).

Modelling conventions:
* JavaScript strings are modelled as `List Char` (`Str`).
* JavaScript numbers are modelled as exact rationals (`ℚ`); `NaN` is
  modelled as `Option.none` where it can arise (`Number(...)` coercions).
  Floating-point rounding and non-finite values are outside the model;
  no verified property depends on them.
* The event-loop concurrency of the task runner is modelled as a small-step
  transition system over worker phases, with an explicit interleaving
  schedule; `nextIndex++` is a single atomic step, as in the single-threaded
  JavaScript runtime.
-/

namespace Wyebot

/-- JavaScript strings, modelled as lists of characters. -/
abbrev Str := List Char

/-- Exact rational subtraction, written out on numerators and denominators
(kernel-computable, unlike the irreducible `Rat.sub`). -/
def qSub (a b : ℚ) : ℚ := mkRat (a.num * b.den - b.num * a.den) (a.den * b.den)

/-- The `Math.abs`. -/
def jsAbs (q : ℚ) : ℚ := if q < 0 then -q else q

/-- The `Math.min` (on the non-`NaN` numbers that reach it here). -/
def mathMin (a b : ℚ) : ℚ := if b < a then b else a

/-- The `Math.max` (on the non-`NaN` numbers that reach it here). -/
def mathMax (a b : ℚ) : ℚ := if a < b then b else a

/-- The whitespace class used by `String.prototype.trim` and the regex `\s`
class (non-unicode mode): ASCII whitespace plus the Unicode space
separators, NBSP, BOM and the line separators. -/
def jsWhitespace (c : Char) : Bool :=
  c = ' ' ∨ c = '\t' ∨ c = '\n' ∨ c = '\r' ∨ c = '\x0b' ∨ c = '\x0c' ∨
  c = ' ' ∨ c = ' ' ∨
  (' ' ≤ c ∧ c ≤ ' ') ∨
  c = ' ' ∨ c = ' ' ∨ c = ' ' ∨ c = ' ' ∨ c = '　' ∨
  c = '﻿'

/-- The `String.prototype.trim`. -/
def jsTrim (s : Str) : Str :=
  ((s.dropWhile jsWhitespace).reverse.dropWhile jsWhitespace).reverse

/-- Decimal digits of `n`, most significant first (helper for `natToStr`). -/
def natToStrAux : ℕ → ℕ → Str → Str
  | 0, _, acc => acc
  | fuel + 1, n, acc =>
    if n = 0 then acc else natToStrAux fuel (n / 10) (Char.ofNat (48 + n % 10) :: acc)

/-- Decimal rendering of a natural number (JavaScript `String(n)` for
non-negative integers). -/
def natToStr (n : ℕ) : Str :=
  if n = 0 then ['0'] else natToStrAux (n + 1) n []

/-- JavaScript `String(q)` for a rational. Exact for integers; the
floating-point shortest-round-trip formatting of non-integral values is
outside the model (none of the verified properties renders a non-integral
number). -/
def qToStr (q : ℚ) : Str :=
  if q.den = 1 then
    (if q.num < 0 then '-' :: natToStr q.num.natAbs else natToStr q.num.natAbs)
  else '?' :: natToStr q.num.natAbs

/-- The `Array.prototype.join(sep)`. -/
def joinStr (sep : Str) : List Str → Str
  | [] => []
  | [s] => s
  | s :: rest => s ++ sep ++ joinStr sep rest

/-- The `String.prototype.indexOf`: index of the first occurrence of `needle`
in `hay`, if any. -/
def indexOfFrom (needle : Str) : Str → Option ℕ
  | [] => if needle = [] then some 0 else none
  | c :: cs =>
    if needle.isPrefixOf (c :: cs) then some 0
    else (indexOfFrom needle cs).map (· + 1)

/-- The `String.prototype.lastIndexOf(c, bound)`: the largest index `i ≤ bound`
with `hay[i] = c`, if any. -/
def lastIndexOfUpTo (c : Char) (hay : Str) (bound : ℕ) : Option ℕ :=
  (((List.range (min (bound + 1) hay.length)).filter
    (fun i => hay.getD i ' ' = c ∧ i < hay.length)).getLast?)

/- ============================================================
   Data model (`code-review.ts` interfaces)
   ============================================================ -/

/-- Severity of a review finding: `"critical" | "warning" | "suggestion"`. -/
inductive Severity where
  | critical
  | warning
  | suggestion
deriving DecidableEq, Repr

/-- The `SEVERITY_WEIGHT`: critical 3, warning 2, suggestion 1. -/
def SEVERITY_WEIGHT : Severity → ℕ
  | .critical => 3
  | .warning => 2
  | .suggestion => 1

/-- The `interface ReviewFinding` of `code-review.ts`. -/
structure ReviewFinding where
  file : Str
  line : ℚ
  severity : Severity
  category : Str
  title : Str
  description : Str
  suggestion : Option Str
deriving DecidableEq, Repr

/-- The `interface ReviewAgentOutput`. -/
structure ReviewAgentOutput where
  findings : List ReviewFinding
  summary : Str
  score : ℚ
deriving DecidableEq, Repr

/-- The `interface ReviewAgentResult`. -/
structure ReviewAgentResult where
  model : Str
  displayName : Str
  output : Option ReviewAgentOutput
  error : Option Str
  exitCode : Int
deriving DecidableEq, Repr

/-- The `interface ConsolidatedFinding`. -/
structure ConsolidatedFinding where
  file : Str
  line : ℚ
  severity : Severity
  category : Str
  title : Str
  description : Str
  suggestion : Option Str
  agents : List Str
  consensusScore : ℕ
deriving DecidableEq, Repr

/- ============================================================
   Similarity (`extractSignificantWords`, `findingSimilarity`)
   ============================================================ -/

/-- The `STOP_WORDS` set of `code-review.ts`, verbatim. -/
def STOP_WORDS : List Str :=
  ["the", "a", "an", "is", "are", "was", "were", "be", "been", "being",
   "have", "has", "had", "do", "does", "did", "will", "would", "could",
   "should", "may", "might", "can", "shall", "to", "of", "in", "for",
   "on", "with", "at", "by", "from", "as", "into", "through", "during",
   "before", "after", "above", "below", "between", "under", "again",
   "further", "then", "once", "here", "there", "when", "where", "why",
   "how", "all", "each", "every", "both", "few", "more", "most",
   "other", "some", "such", "no", "nor", "not", "only", "own", "same",
   "so", "than", "too", "very", "just", "because", "but", "and", "or",
   "if", "while", "that", "this", "these", "those", "it", "its",
   "also", "which", "about", "using", "used", "use", "like"].map String.toList

/-- One step of the tokenizer fold: flush the current alphanumeric run. -/
def flushTok : Str × List Str → List Str
  | ([], toks) => toks
  | (cur, toks) => cur :: toks

/-- One step of the tokenizer fold (processing characters right to left). -/
def tokStep (c : Char) (acc : Str × List Str) : Str × List Str :=
  let lc := c.toLower
  if ('a' ≤ lc ∧ lc ≤ 'z') ∨ ('0' ≤ lc ∧ lc ≤ '9') then (lc :: acc.1, acc.2)
  else ([], flushTok acc)

/-- Maximal runs of lower-cased `[a-z0-9]` characters.  Mirrors
`text.toLowerCase().replace(/[^a-z0-9\s]/g, " ").split(/\s+/)`: every
non-alphanumeric character separates tokens, and the empty tokens that the
JavaScript split can yield are discarded by the length filter downstream. -/
def tokenize (t : Str) : List Str := flushTok (t.foldr tokStep ([], []))

/-- The `extractSignificantWords`: tokens longer than 2 characters that are not
stop words, deduplicated in first-insertion order (a JavaScript `Set`). -/
def extractSignificantWords (t : Str) : List Str :=
  ((tokenize t).filter (fun w => 2 < w.length ∧ w ∉ STOP_WORDS)).foldl
    (fun acc w => if w ∈ acc then acc else acc ++ [w]) []

/-- The word-overlap part of `findingSimilarity` (lines 729–743): overlap
count over the size of the smaller significant-word set, `0` if either set
is empty. -/
def wordOverlap (a b : ReviewFinding) : ℚ :=
  let aWords := extractSignificantWords (a.title ++ [' '] ++ a.description)
  let bWords := extractSignificantWords (b.title ++ [' '] ++ b.description)
  if aWords.length = 0 ∨ bWords.length = 0 then 0
  else mkRat (aWords.filter (fun w => w ∈ bWords)).length
    (min aWords.length bWords.length)

/-- The `findingSimilarity`: 0 across files, 0 when the lines are more than 15
apart, otherwise the word-overlap similarity. -/
def findingSimilarity (a b : ReviewFinding) : ℚ :=
  if a.file ≠ b.file then 0
  else if 15 < jsAbs (qSub a.line b.line) then 0
  else wordOverlap a b

/-- The `SIMILARITY_THRESHOLD` (0.3). -/
def SIMILARITY_THRESHOLD : ℚ := mkRat 3 10

/- ============================================================
   Consolidation (`consolidateFindings`)
   ============================================================ -/

/-- The representative `ReviewFinding` the code rebuilds from a group when
comparing a new finding against it (no `suggestion` field is passed). -/
def groupRep (g : ConsolidatedFinding) : ReviewFinding :=
  { file := g.file, line := g.line, severity := g.severity,
    category := g.category, title := g.title, description := g.description,
    suggestion := none }

/-- The loop of the best-group scan.  The state carries the current
`(bestGroup?, bestScore)` pair and the index of the next group. -/
def bestGroupAux (f : ReviewFinding) :
    ((Option (ℕ × ConsolidatedFinding) × ℚ) × ℕ) →
    List ConsolidatedFinding → (Option (ℕ × ConsolidatedFinding) × ℚ) × ℕ
  | st, [] => st
  | st, g :: gs =>
    bestGroupAux f
      (if st.1.2 < findingSimilarity f (groupRep g)
       then ((some (st.2, g), findingSimilarity f (groupRep g)), st.2 + 1)
       else (st.1, st.2 + 1)) gs

/-- The best-group scan: starting from `bestGroup = null`, `bestScore = 0`,
remember the group (and its index) whenever its similarity is strictly
greater than the best seen so far. -/
def bestGroup (f : ReviewFinding) (groups : List ConsolidatedFinding) :
    Option (ℕ × ConsolidatedFinding) × ℚ :=
  (bestGroupAux f ((none, 0), 0) groups).1

/-- The merged `suggestion` field: the incoming suggestion replaces the
one of the group when it is truthy (non-empty) and the one of the group is
falsy or shorter. -/
def mergedSuggestion (fs gs : Option Str) : Option Str :=
  match fs with
  | none => gs
  | some s =>
    if s = [] then gs
    else
      match gs with
      | none => some s
      | some t => if t = [] then some s else if t.length < s.length then some s else gs

/-- The merged agents list: append the contributing agent if not present. -/
def mergedAgents (g : ConsolidatedFinding) (agent : Str) : List Str :=
  if agent ∈ g.agents then g.agents else g.agents ++ [agent]

/-- The merged severity: upgrade when the incoming weight is strictly
higher. -/
def mergedSeverity (g : ConsolidatedFinding) (f : ReviewFinding) : Severity :=
  if SEVERITY_WEIGHT g.severity < SEVERITY_WEIGHT f.severity then f.severity
  else g.severity

/-- The merged (title, description): keep the strictly longer description
and its paired title. -/
def mergedTitleDesc (g : ConsolidatedFinding) (f : ReviewFinding) : Str × Str :=
  if g.description.length < f.description.length then (f.title, f.description)
  else (g.title, g.description)

/-- Merging one finding (from `agent`) into an existing group, exactly as
the merge branch of `consolidateFindings` mutates `bestGroup`; the
consensus score is recomputed last from the updated agents and severity. -/
def mergeInto (g : ConsolidatedFinding) (f : ReviewFinding) (agent : Str) :
    ConsolidatedFinding :=
  { file := g.file, line := g.line, severity := mergedSeverity g f,
    category := g.category, title := (mergedTitleDesc g f).1,
    description := (mergedTitleDesc g f).2,
    suggestion := mergedSuggestion f.suggestion g.suggestion,
    agents := mergedAgents g agent,
    consensusScore := (mergedAgents g agent).length *
      SEVERITY_WEIGHT (mergedSeverity g f) }

/-- A fresh singleton group for a finding no existing group matched. -/
def newGroup (f : ReviewFinding) (agent : Str) : ConsolidatedFinding :=
  { file := f.file, line := f.line, severity := f.severity,
    category := f.category, title := f.title, description := f.description,
    suggestion := f.suggestion, agents := [agent],
    consensusScore := SEVERITY_WEIGHT f.severity }

/-- Processing one flattened `(finding, agent)` pair: merge into the best
existing group when its similarity reaches the threshold, else append a new
singleton group. -/
def insertFinding (groups : List ConsolidatedFinding)
    (fa : ReviewFinding × Str) : List ConsolidatedFinding :=
  match bestGroup fa.1 groups with
  | (some (i, g), score) =>
    if SIMILARITY_THRESHOLD ≤ score then groups.set i (mergeInto g fa.1 fa.2)
    else groups ++ [newGroup fa.1 fa.2]
  | (none, _) => groups ++ [newGroup fa.1 fa.2]

/-- Step 1 of `consolidateFindings`: flatten all findings of all successful
agents, in result order, tagged with the display name of the reporting
agent. -/
def flattenResults (results : List ReviewAgentResult) :
    List (ReviewFinding × Str) :=
  results.flatMap (fun r =>
    match r.output with
    | none => []
    | some o => o.findings.map (fun f => (f, r.displayName)))

/-- Step 2 of `consolidateFindings`: the greedy one-pass grouping. -/
def foldGroups (l : List (ReviewFinding × Str)) : List ConsolidatedFinding :=
  l.foldl insertFinding []

/-- The sort comparator of step 3: descending `consensusScore`, ties broken
by descending severity weight. -/
def cmpGroups (a b : ConsolidatedFinding) : Int :=
  if a.consensusScore ≠ b.consensusScore then
    (b.consensusScore : Int) - (a.consensusScore : Int)
  else (SEVERITY_WEIGHT b.severity : Int) - (SEVERITY_WEIGHT a.severity : Int)

/-- Stable insertion with respect to `cmpGroups`: a later element passes
every earlier element it does not strictly precede, so true ties keep
insertion order — the behavior of the (stable) JavaScript `Array.sort`. -/
def insertByCmp (x : ConsolidatedFinding) :
    List ConsolidatedFinding → List ConsolidatedFinding
  | [] => [x]
  | y :: ys => if cmpGroups x y < 0 then x :: y :: ys else y :: insertByCmp x ys

/-- Stable sort by `cmpGroups` (JavaScript `Array.prototype.sort` is
stable, and a stable sort by a total preorder is unique, so any stable
sorting algorithm is an exact model). -/
def sortGroups (l : List ConsolidatedFinding) : List ConsolidatedFinding :=
  l.foldl (fun acc g => insertByCmp g acc) []

/-- The `consolidateFindings`: flatten, group greedily, sort. -/
def consolidateFindings (results : List ReviewAgentResult) :
    List ConsolidatedFinding :=
  sortGroups (foldGroups (flattenResults results))

/-- The ordering the spec ascribes to the consolidated list: `a` may precede
`b` when `a` has the strictly larger consensus score, or equal scores and at
least the severity weight of `b`. -/
def rankedBefore (a b : ConsolidatedFinding) : Prop :=
  b.consensusScore < a.consensusScore ∨
    (a.consensusScore = b.consensusScore ∧
      SEVERITY_WEIGHT b.severity ≤ SEVERITY_WEIGHT a.severity)

/-- The group-level invariant maintained by the consolidator: a non-empty,
duplicate-free agents list whose length times the severity weight is the
consensus score. -/
def GroupInv (g : ConsolidatedFinding) : Prop :=
  g.agents ≠ [] ∧ g.agents.Nodup ∧
    g.consensusScore = g.agents.length * SEVERITY_WEIGHT g.severity

/- ============================================================
   Concrete instances used by example-level claims and witnesses
   ============================================================ -/

/-- Three agent results each carrying the same single finding `f`. -/
def identicalResults (f : ReviewFinding) (a1 a2 a3 : Str) :
    List ReviewAgentResult :=
  [{ model := [], displayName := a1,
     output := some { findings := [f], summary := [], score := 5 },
     error := none, exitCode := 0 },
   { model := [], displayName := a2,
     output := some { findings := [f], summary := [], score := 5 },
     error := none, exitCode := 0 },
   { model := [], displayName := a3,
     output := some { findings := [f], summary := [], score := 5 },
     error := none, exitCode := 0 }]

/-- A finding whose title has no significant word: `"xy"` is only two
characters long, so `extractSignificantWords` drops it. -/
def insignificantFinding : ReviewFinding :=
  { file := "a.ts".toList, line := 1, severity := .critical,
    category := "bug".toList, title := "xy".toList, description := [],
    suggestion := none }

/-- A warning finding with plenty of significant words. -/
def warnFinding : ReviewFinding :=
  { file := "b.ts".toList, line := 10, severity := .warning,
    category := "bug".toList, title := "unchecked input value".toList,
    description := [], suggestion := none }

/-- The `warnFinding` moved 16 lines away (outside the ±15 window). -/
def farFinding : ReviewFinding := { warnFinding with line := 26 }

/-- The `warnFinding` moved exactly 15 lines away (on the window boundary). -/
def edgeFinding : ReviewFinding := { warnFinding with line := 25 }

/-- A critical finding on a different file. -/
def critFinding : ReviewFinding :=
  { file := "a.ts".toList, line := 1, severity := .critical,
    category := "bug".toList, title := "buffer overflow danger".toList,
    description := [], suggestion := none }

/-- A suggestion finding on a third file. -/
def suggFinding : ReviewFinding :=
  { file := "c.ts".toList, line := 5, severity := .suggestion,
    category := "style".toList, title := "rename variable somewhat".toList,
    description := [], suggestion := none }

/-- A successful agent result with the given name and findings. -/
def mkAgentResult (name : String) (fs : List ReviewFinding) :
    ReviewAgentResult :=
  { model := "m".toList, displayName := name.toList,
    output := some { findings := fs, summary := [], score := 5 },
    error := none, exitCode := 0 }

/-- The consensus-ranking scenario of the spec: one critical finding from
one agent, one warning finding from three agents, one suggestion finding
from one agent. -/
def rankingExample : List ReviewAgentResult :=
  [mkAgentResult "A" [warnFinding],
   mkAgentResult "B" [warnFinding, critFinding],
   mkAgentResult "C" [suggFinding, warnFinding]]

/- ============================================================
   The concurrency-limited task runner (`mapWithConcurrencyLimit`)
   ============================================================ -/

/-- The phase of one worker of `mapWithConcurrencyLimit`: at the top of its
`while (true)` loop, awaiting the job for a claimed index, or returned. -/
inductive WPhase where
  | atLoop
  | running (idx : ℕ)
  | finished
deriving DecidableEq, Repr

/-- The shared state of a run: the `nextIndex` counter, the `results`
array, and the phase of each worker.  The stagger delay only shifts
timing, so it is not part of the state. -/
structure RState (β : Type) where
  nextIndex : ℕ
  results : List (Option β)
  workers : List WPhase
deriving DecidableEq, Repr

/-- Observable step labels: a worker claimed index `c` (`nextIndex++`), or
wrote the result of job `i`. -/
inductive RLabel where
  | claimed (c : ℕ)
  | ran (i : ℕ)
deriving DecidableEq, Repr

/-- One event-loop step of worker `w`.  A worker at its loop top atomically
claims `nextIndex` and either returns (index out of range) or starts the
job; a worker whose awaited job completes writes `results[current]` and
goes back to the loop top.  `none` when `w` cannot step. -/
def stepFn {α β : Type} (items : List α) (fn : α → ℕ → β) (s : RState β)
    (w : ℕ) : Option (RState β × RLabel) :=
  match s.workers[w]? with
  | none => none
  | some WPhase.finished => none
  | some WPhase.atLoop =>
    if items.length ≤ s.nextIndex then
      some (RState.mk (s.nextIndex + 1) s.results
        (s.workers.set w WPhase.finished), RLabel.claimed s.nextIndex)
    else
      some (RState.mk (s.nextIndex + 1) s.results
        (s.workers.set w (WPhase.running s.nextIndex)), RLabel.claimed s.nextIndex)
  | some (WPhase.running i) =>
    match items[i]? with
    | some x =>
      some (RState.mk s.nextIndex (s.results.set i (some (fn x i)))
        (s.workers.set w WPhase.atLoop), RLabel.ran i)
    | none => none

/-- Run a whole interleaving schedule (a list of worker choices); fails if
any scheduled worker cannot step. -/
def runSched {α β : Type} (items : List α) (fn : α → ℕ → β) :
    RState β → List ℕ → Option (RState β × List RLabel)
  | s, [] => some (s, [])
  | s, w :: ws =>
    match stepFn items fn s w with
    | none => none
    | some (s', l) =>
      match runSched items fn s' ws with
      | none => none
      | some (s'', ls) => some (s'', l :: ls)

/-- The `const limit = Math.max(1, Math.min(concurrency, items.length))`. -/
def effectiveLimit (concurrency n : ℕ) : ℕ := max 1 (min concurrency n)

/-- The initial state: counter 0, all results unset, `limit` workers at
their loop tops. -/
def runnerInit (β : Type) (n limit : ℕ) : RState β :=
  { nextIndex := 0, results := List.replicate n none,
    workers := List.replicate limit WPhase.atLoop }

/-- The two ways `mapWithConcurrencyLimit` can proceed: the `N = 0` early
return of `[]` before any worker is created, or a concurrent run from the
initial state. -/
inductive MapWCLRun (β : Type) where
  | immediate (res : List β)
  | concurrent (init : RState β)
deriving DecidableEq, Repr

/-- The `mapWithConcurrencyLimit`, up to the scheduling of the worker pool:
empty input returns `[]` immediately; otherwise `effectiveLimit` workers
run from the initial state under some interleaving. -/
def mapWithConcurrencyLimit (β : Type) {α : Type} (items : List α)
    (concurrency : ℕ) : MapWCLRun β :=
  if items.length = 0 then MapWCLRun.immediate []
  else MapWCLRun.concurrent
    (runnerInit β items.length (effectiveLimit concurrency items.length))

/-- All workers have returned (the `Promise.all` has resolved). -/
def allFinished {β : Type} (s : RState β) : Prop :=
  ∀ w ∈ s.workers, w = WPhase.finished

instance {β : Type} (s : RState β) : Decidable (allFinished s) := by
  unfold allFinished
  infer_instance

/-- The job index of a `ran` label. -/
def ranIdx : RLabel → Option ℕ
  | RLabel.ran i => some i
  | RLabel.claimed _ => none

/-- The invariant tying a reachable runner state to the inputs. -/
def RunnerInv {α β : Type} (items : List α) (fn : α → ℕ → β)
    (s : RState β) : Prop :=
  s.results.length = items.length ∧
  s.workers ≠ [] ∧
  (∀ (i : ℕ) (v : β), s.results[i]? = some (some v) →
    ∃ x, items[i]? = some x ∧ v = fn x i) ∧
  (∀ (w i : ℕ), s.workers[w]? = some (WPhase.running i) →
    i < items.length ∧ i < s.nextIndex ∧ s.results[i]? = some none) ∧
  (∀ (w w' i : ℕ), s.workers[w]? = some (WPhase.running i) →
    s.workers[w']? = some (WPhase.running i) → w = w') ∧
  (∀ i : ℕ, i < items.length → i < s.nextIndex →
    (∃ v, s.results[i]? = some (some v)) ∨
    (∃ w : ℕ, s.workers[w]? = some (WPhase.running i))) ∧
  (∀ i : ℕ, i < items.length → s.nextIndex ≤ i → s.results[i]? = some none) ∧
  ((∃ w : ℕ, s.workers[w]? = some WPhase.finished) →
    items.length < s.nextIndex)

/-- Whether the result of job `i` has been written. -/
def isWritten {β : Type} (s : RState β) (i : ℕ) : Bool :=
  match s.results[i]? with
  | some (some _) => true
  | _ => false

/- ============================================================
   JSON values and `JSON.parse` (platform builtins used by the parser)
   ============================================================ -/

/-- The result of `JSON.parse`: null, booleans, numbers, strings, arrays,
objects.  Numbers are modelled as exact rationals; the rounding of
`JSON.parse` to binary doubles is outside the model. -/
inductive JsonValue where
  | null
  | bool (b : Bool)
  | num (q : ℚ)
  | str (s : Str)
  | arr (elems : List JsonValue)
  | obj (fields : List (Str × JsonValue))
deriving Repr

/-- JSON insignificant whitespace (space, tab, newline, carriage return). -/
def skipWs : Str → Str
  | [] => []
  | c :: cs =>
    if c = ' ' ∨ c = '\t' ∨ c = '\n' ∨ c = '\r' then skipWs cs else c :: cs

/-- ASCII decimal digit test. -/
def isDigit (c : Char) : Bool := '0' ≤ c ∧ c ≤ '9'

/-- Hexadecimal digit value. -/
def hexVal (c : Char) : Option ℕ :=
  if '0' ≤ c ∧ c ≤ '9' then some (c.toNat - 48)
  else if 'a' ≤ c ∧ c ≤ 'f' then some (c.toNat - 87)
  else if 'A' ≤ c ∧ c ≤ 'F' then some (c.toNat - 55)
  else none

/-- The longest leading run of decimal digits and the remainder. -/
def takeDigits : Str → Str × Str
  | [] => ([], [])
  | c :: cs =>
    if isDigit c then
      let p := takeDigits cs
      (c :: p.1, p.2)
    else ([], c :: cs)

/-- Decimal digits to a natural number. -/
def digitsToNat (ds : Str) : ℕ :=
  ds.foldl (fun acc c => acc * 10 + (c.toNat - 48)) 0

/-- The rational `sign × ints.fracs × 10^expv` (exact; no double
rounding). -/
def ratFromParts (sign : ℤ) (ints fracs : Str) (expv : ℤ) : ℚ :=
  let mant : ℤ := sign * (digitsToNat ints * 10 ^ fracs.length + digitsToNat fracs)
  let e : ℤ := expv - fracs.length
  if 0 ≤ e then mkRat (mant * ((10 : ℕ) ^ e.toNat : ℕ)) 1
  else mkRat mant (10 ^ (-e).toNat)

/-- JSON string body (after the opening quote), with escapes; surrogate
pairs are outside the model.  Fuel-indexed; the fuel is always at least the
input length at the call sites. -/
def parseJString : ℕ → Str → Option (Str × Str)
  | 0, _ => none
  | _ + 1, [] => none
  | fuel + 1, c :: cs =>
    if c = '"' then some ([], cs)
    else if c = '\\' then
      match cs with
      | [] => none
      | e :: rest =>
        if e = '"' then (parseJString fuel rest).map (fun p => ('"' :: p.1, p.2))
        else if e = '\\' then (parseJString fuel rest).map (fun p => ('\\' :: p.1, p.2))
        else if e = '/' then (parseJString fuel rest).map (fun p => ('/' :: p.1, p.2))
        else if e = 'b' then (parseJString fuel rest).map (fun p => ('\x08' :: p.1, p.2))
        else if e = 'f' then (parseJString fuel rest).map (fun p => ('\x0c' :: p.1, p.2))
        else if e = 'n' then (parseJString fuel rest).map (fun p => ('\n' :: p.1, p.2))
        else if e = 'r' then (parseJString fuel rest).map (fun p => ('\r' :: p.1, p.2))
        else if e = 't' then (parseJString fuel rest).map (fun p => ('\t' :: p.1, p.2))
        else if e = 'u' then
          match rest with
          | h1 :: h2 :: h3 :: h4 :: rest2 =>
            match hexVal h1, hexVal h2, hexVal h3, hexVal h4 with
            | some a, some b, some c2, some d =>
              (parseJString fuel rest2).map
                (fun p => (Char.ofNat (((a * 16 + b) * 16 + c2) * 16 + d) :: p.1, p.2))
            | _, _, _, _ => none
          | _ => none
        else none
    else if c.toNat < 32 then none
    else (parseJString fuel cs).map (fun p => (c :: p.1, p.2))

/-- JSON number grammar `-? (0 | [1-9][0-9]*) (. [0-9]+)? ([eE][+-]?[0-9]+)?`,
as an exact rational.  A leading-zero violation ends the number after the
zero, making the enclosing parse fail exactly where `JSON.parse` throws. -/
def parseJNumber (s : Str) : Option (ℚ × Str) :=
  let sp : ℤ × Str := match s with
    | '-' :: rest => (-1, rest)
    | _ => (1, s)
  match sp.2 with
  | [] => none
  | c :: _ =>
    if ¬ isDigit c then none
    else
      let ip := takeDigits sp.2
      let ip := if 1 < ip.1.length ∧ ip.1.headD '0' = '0'
        then (['0'], ip.1.drop 1 ++ ip.2) else ip
      match ip.2 with
      | '.' :: rest =>
        let fp := takeDigits rest
        if fp.1 = [] then none
        else
          match fp.2 with
          | e :: rest2 =>
            if e = 'e' ∨ e = 'E' then
              let es : ℤ × Str := match rest2 with
                | '+' :: r => (1, r)
                | '-' :: r => (-1, r)
                | _ => (1, rest2)
              let ed := takeDigits es.2
              if ed.1 = [] then some (ratFromParts sp.1 ip.1 fp.1 0, fp.2)
              else some (ratFromParts sp.1 ip.1 fp.1 (es.1 * digitsToNat ed.1), ed.2)
            else some (ratFromParts sp.1 ip.1 fp.1 0, fp.2)
          | [] => some (ratFromParts sp.1 ip.1 fp.1 0, [])
      | e :: rest2 =>
        if e = 'e' ∨ e = 'E' then
          let es : ℤ × Str := match rest2 with
            | '+' :: r => (1, r)
            | '-' :: r => (-1, r)
            | _ => (1, rest2)
          let ed := takeDigits es.2
          if ed.1 = [] then some (ratFromParts sp.1 ip.1 [] 0, ip.2)
          else some (ratFromParts sp.1 ip.1 [] (es.1 * digitsToNat ed.1), ed.2)
        else some (ratFromParts sp.1 ip.1 [] 0, ip.2)
      | [] => some (ratFromParts sp.1 ip.1 [] 0, [])

/-- Duplicate object keys: later assignments overwrite in place, as in a
JavaScript object literal built by `JSON.parse`. -/
def setField (fields : List (Str × JsonValue)) (k : Str) (v : JsonValue) :
    List (Str × JsonValue) :=
  if fields.any (fun p => p.1 = k) then
    fields.map (fun p => if p.1 = k then (k, v) else p)
  else fields ++ [(k, v)]

mutual

/-- One JSON value (fuel-indexed recursive descent). -/
def parseJValue : ℕ → Str → Option (JsonValue × Str)
  | 0, _ => none
  | fuel + 1, s =>
    match skipWs s with
    | [] => none
    | 'n' :: 'u' :: 'l' :: 'l' :: rest => some (JsonValue.null, rest)
    | 't' :: 'r' :: 'u' :: 'e' :: rest => some (JsonValue.bool true, rest)
    | 'f' :: 'a' :: 'l' :: 's' :: 'e' :: rest => some (JsonValue.bool false, rest)
    | '"' :: rest =>
      (parseJString (rest.length + 1) rest).map
        (fun p => (JsonValue.str p.1, p.2))
    | '[' :: rest =>
      match skipWs rest with
      | ']' :: rest2 => some (JsonValue.arr [], rest2)
      | s2 => (parseJArrayRest fuel s2 []).map (fun p => (JsonValue.arr p.1, p.2))
    | '\x7b' :: rest =>
      match skipWs rest with
      | '\x7d' :: rest2 => some (JsonValue.obj [], rest2)
      | s2 => (parseJObjRest fuel s2 []).map (fun p => (JsonValue.obj p.1, p.2))
    | c :: rest => (parseJNumber (c :: rest)).map (fun p => (JsonValue.num p.1, p.2))

/-- Array elements after the opening bracket (at least one element). -/
def parseJArrayRest : ℕ → Str → List JsonValue → Option (List JsonValue × Str)
  | 0, _, _ => none
  | fuel + 1, s, acc =>
    match parseJValue fuel s with
    | none => none
    | some (v, rest) =>
      match skipWs rest with
      | ',' :: rest2 => parseJArrayRest fuel rest2 (acc ++ [v])
      | ']' :: rest2 => some (acc ++ [v], rest2)
      | _ => none

/-- Object members after the opening brace (at least one member). -/
def parseJObjRest : ℕ → Str → List (Str × JsonValue) →
    Option (List (Str × JsonValue) × Str)
  | 0, _, _ => none
  | fuel + 1, s, acc =>
    match skipWs s with
    | '"' :: rest =>
      match parseJString (rest.length + 1) rest with
      | none => none
      | some (key, rest2) =>
        match skipWs rest2 with
        | ':' :: rest3 =>
          match parseJValue fuel rest3 with
          | none => none
          | some (v, rest4) =>
            match skipWs rest4 with
            | ',' :: rest5 => parseJObjRest fuel rest5 (setField acc key v)
            | '\x7d' :: rest5 => some (setField acc key v, rest5)
            | _ => none
        | _ => none
    | _ => none

end

/-- The `JSON.parse`: parse one value and require only whitespace after it;
`none` models a thrown `SyntaxError`. -/
def jsonParse (s : Str) : Option JsonValue :=
  match parseJValue (2 * s.length + 4) s with
  | some (v, rest) => if skipWs rest = [] then some v else none
  | none => none

/- ============================================================
   JavaScript coercions used by `parseReviewOutput`
   ============================================================ -/

/-- Member access `v.k`: `none` models `undefined` (also the thrown
`TypeError` on `null`, which every call site catches). -/
def getMember (v : JsonValue) (k : Str) : Option JsonValue :=
  match v with
  | JsonValue.obj fields =>
    match fields.find? (fun p => p.1 == k) with
    | some p => some p.2
    | none => none
  | _ => none

/-- Field names of the reviewer JSON schema. -/
def findingsKey : Str := "findings".toList

/-- The `summary` field name. -/
def summaryKey : Str := "summary".toList

/-- The `score` field name. -/
def scoreKey : Str := "score".toList

/-- The `file` field name. -/
def fileKey : Str := "file".toList

/-- The `title` field name. -/
def titleKey : Str := "title".toList

/-- The `line` field name. -/
def lineKey : Str := "line".toList

/-- The `severity` field name. -/
def severityKey : Str := "severity".toList

/-- The `category` field name. -/
def categoryKey : Str := "category".toList

/-- The `description` field name. -/
def descriptionKey : Str := "description".toList

/-- The `suggestion` field name. -/
def suggestionKey : Str := "suggestion".toList

/-- JavaScript truthiness of a JSON value. -/
def truthy : JsonValue → Bool
  | JsonValue.null => false
  | JsonValue.bool b => b
  | JsonValue.num q => q ≠ 0
  | JsonValue.str s => s ≠ []
  | JsonValue.arr _ => true
  | JsonValue.obj _ => true

/-- Truthiness of a possibly-`undefined` value. -/
def truthyOpt : Option JsonValue → Bool
  | some v => truthy v
  | none => false

/-- Whether a JSON value is `null` (array elements that render empty). -/
def isNullJ : JsonValue → Bool
  | JsonValue.null => true
  | _ => false

mutual

/-- The `String(v)`.  Arrays join their elements with commas (null elements
render empty); objects render `[object Object]`. -/
def jsToString : JsonValue → Str
  | JsonValue.null => "null".toList
  | JsonValue.bool true => "true".toList
  | JsonValue.bool false => "false".toList
  | JsonValue.num q => qToStr q
  | JsonValue.str s => s
  | JsonValue.arr elems => joinStr [','] (jsToStringElems elems)
  | JsonValue.obj _ => "[object Object]".toList

/-- Element renderings for `Array.prototype.join` (null renders empty). -/
def jsToStringElems : List JsonValue → List Str
  | [] => []
  | v :: rest => (if isNullJ v then [] else jsToString v) :: jsToStringElems rest

end

/-- The `String(v)` where `v` may be `undefined`. -/
def jsToStringOpt : Option JsonValue → Str
  | some v => jsToString v
  | none => "undefined".toList

/-- The `Number(string)`: trimmed, empty string is 0, signed decimal with
optional fraction and exponent; anything else (hex, `Infinity`, junk) is
`NaN` (`none`). -/
def strToNumber (s : Str) : Option ℚ :=
  let t := jsTrim s
  if t = [] then some 0
  else
    let sp : ℤ × Str := match t with
      | '-' :: r => (-1, r)
      | '+' :: r => (1, r)
      | _ => (1, t)
    let ip := takeDigits sp.2
    let fpp : Str × Str := match ip.2 with
      | '.' :: r => takeDigits r
      | _ => ([], ip.2)
    if ip.1 = [] ∧ fpp.1 = [] then none
    else
      let ep : ℤ × Str := match fpp.2 with
        | e :: r =>
          if e = 'e' ∨ e = 'E' then
            let es : ℤ × Str := match r with
              | '+' :: rr => (1, rr)
              | '-' :: rr => (-1, rr)
              | _ => (1, r)
            let ed := takeDigits es.2
            if ed.1 = [] then (0, fpp.2) else (es.1 * digitsToNat ed.1, ed.2)
          else (0, fpp.2)
        | [] => (0, [])
      if ep.2 ≠ [] then none
      else some (ratFromParts sp.1 ip.1 fpp.1 ep.1)

/-- The `Number(v)` for a possibly-`undefined` JSON value; `none` is `NaN`.
Nested exotic array/object cases are approximated through their string
coercion, which no verified property exercises. -/
def jsToNumber : Option JsonValue → Option ℚ
  | none => none
  | some JsonValue.null => some 0
  | some (JsonValue.bool b) => some (if b then 1 else 0)
  | some (JsonValue.num q) => some q
  | some (JsonValue.str s) => strToNumber s
  | some (JsonValue.arr []) => some 0
  | some (JsonValue.arr [JsonValue.num q]) => some q
  | some (JsonValue.arr [JsonValue.str s]) => strToNumber s
  | some (JsonValue.arr [JsonValue.null]) => some 0
  | some (JsonValue.arr _) => none
  | some (JsonValue.obj _) => none

/-- The `v || d` for a possibly-`undefined` value and a default. -/
def jsOr (v : Option JsonValue) (d : JsonValue) : JsonValue :=
  match v with
  | some x => if truthy x then x else d
  | none => d

/- ============================================================
   `parseReviewOutput` (code-review.ts lines 617–690)
   ============================================================ -/

/-- Strategy 1: every ```` ```json ```` / ```` ``` ```` fenced block, in
order, trimmed — the regex `/```(?:json)?\s*([\s\S]*?)```/g`. -/
def fenceScan : ℕ → Str → List Str
  | 0, _ => []
  | fuel + 1, s =>
    match indexOfFrom ("```".toList) s with
    | none => []
    | some i =>
      let afterOpen := s.drop (i + 3)
      let afterTag :=
        if ("json".toList).isPrefixOf afterOpen then afterOpen.drop 4
        else afterOpen
      let body := afterTag.dropWhile jsWhitespace
      match indexOfFrom ("```".toList) body with
      | none => []
      | some j => jsTrim (body.take j) :: fenceScan fuel (body.drop (j + 3))

/-- The brace-depth scan of strategy 2: length of the prefix ending at the
brace that balances the opening one (`depth === 0` checked after each
character). -/
def braceScanLen : ℤ → ℕ → Str → Option ℕ
  | _, _, [] => none
  | depth, k, c :: cs =>
    let d := if c = '\x7b' then depth + 1
      else if c = '\x7d' then depth - 1 else depth
    if d = 0 then some (k + 1) else braceScanLen d (k + 1) cs

/-- Strategy 2: the balanced-brace substring around the first occurrence of
the literal `"findings"` key. -/
def findingsBraceCandidates (t : Str) : List Str :=
  match indexOfFrom ("\"findings\"".toList) t with
  | none => []
  | some idx =>
    match lastIndexOfUpTo '\x7b' t idx with
    | none => []
    | some bs =>
      match braceScanLen 0 0 (t.drop bs) with
      | none => []
      | some len => [(t.drop bs).take len]

/-- Strategy 3: first `\x7b` to last `\x7d` (strictly after it). -/
def firstLastBraceCandidates (t : Str) : List Str :=
  match indexOfFrom ['\x7b'] t, lastIndexOfUpTo '\x7d' t t.length with
  | some a, some b => if a < b then [(t.drop a).take (b - a + 1)] else []
  | _, _ => []

/-- The candidate substrings of the four extraction strategies, in the
order they are tried (strategy 4 is the whole trimmed text). -/
def reviewCandidates (text : Str) : List Str :=
  let trimmed := jsTrim text
  fenceScan (trimmed.length + 1) trimmed ++ findingsBraceCandidates trimmed ++
    firstLastBraceCandidates trimmed ++ [trimmed]

/-- Severity normalization: only the three known severity strings pass,
everything else becomes `suggestion`. -/
def normalizeSeverity (v : Option JsonValue) : Severity :=
  match v with
  | some (JsonValue.str s) =>
    if s = "critical".toList then Severity.critical
    else if s = "warning".toList then Severity.warning
    else if s = "suggestion".toList then Severity.suggestion
    else Severity.suggestion
  | _ => Severity.suggestion

/-- Field-by-field normalization of one finding object (which has truthy
`file` and `title`). -/
def normalizeFinding (f : JsonValue) : ReviewFinding :=
  { file := jsToStringOpt (getMember f fileKey),
    line := match jsToNumber (getMember f lineKey) with
      | some q => q
      | none => 0,
    severity := normalizeSeverity (getMember f severityKey),
    category := jsToString (jsOr (getMember f categoryKey)
      (JsonValue.str ("other".toList))),
    title := jsToStringOpt (getMember f titleKey),
    description := jsToString (jsOr (getMember f descriptionKey)
      (JsonValue.str [])),
    suggestion := if truthyOpt (getMember f suggestionKey)
      then some (jsToStringOpt (getMember f suggestionKey))
      else none }

/-- The validation loop over the findings array.  A `null` element makes
`f.file` throw a `TypeError`, abandoning the whole candidate (`none`);
entries without truthy `file` and `title` are skipped, not fatal. -/
def validateFindings : List JsonValue → Option (List ReviewFinding)
  | [] => some []
  | JsonValue.null :: _ => none
  | f :: rest =>
    if truthyOpt (getMember f fileKey) ∧
        truthyOpt (getMember f titleKey) then
      (validateFindings rest).map (fun l => normalizeFinding f :: l)
    else validateFindings rest

/-- The `Math.min(10, Math.max(1, Number(parsed.score) || 5))`. -/
def normalizeScore (v : Option JsonValue) : ℚ :=
  let n : ℚ := match jsToNumber v with
    | some q => if q = 0 then 5 else q
    | none => 5
  mathMin 10 (mathMax 1 n)

/-- Processing of one candidate: parse, require an array-typed `findings`
member, validate every finding, normalize `summary` and `score`.  `none`
covers both `continue` paths and a thrown `TypeError`. -/
def candidateResult (c : Str) : Option ReviewAgentOutput :=
  match jsonParse c with
  | none => none
  | some v =>
    match getMember v findingsKey with
    | some (JsonValue.arr elems) =>
      match validateFindings elems with
      | some findings =>
        some { findings := findings,
               summary := jsToString (jsOr (getMember v summaryKey)
                 (JsonValue.str [])),
               score := normalizeScore (getMember v scoreKey) }
      | none => none
    | _ => none

/-- The candidate loop: first candidate that succeeds wins. -/
def tryCandidates : List Str → Option ReviewAgentOutput
  | [] => none
  | c :: rest =>
    match candidateResult c with
    | some out => some out
    | none => tryCandidates rest

/-- The `parseReviewOutput`. -/
def parseReviewOutput (text : Str) : Option ReviewAgentOutput :=
  tryCandidates (reviewCandidates text)

/-- The spec's criterion for a winning candidate: parses as JSON with an
array-typed `findings` field. -/
def claimValidCandidate (c : Str) : Bool :=
  match jsonParse c with
  | some v =>
    match getMember v findingsKey with
    | some (JsonValue.arr _) => true
    | _ => false
  | none => false

/-- The criterion the code actually implements: additionally, no element of
the findings array may be `null`. -/
def amendedValidCandidate (c : Str) : Bool :=
  match jsonParse c with
  | some v =>
    match getMember v findingsKey with
    | some (JsonValue.arr elems) =>
      elems.all (fun e => match e with
        | JsonValue.null => false
        | _ => true)
    | _ => false
  | none => false

/- ============================================================
   `getFinalOutput` (code-review.ts lines 517–527)
   ============================================================ -/

/-- One content part of a pi JSON-mode message: a text part or any other
part kind (thinking, tool call, …).  The `Message` type itself belongs to
the host runtime; only `role` and `content` parts are consumed here. -/
inductive MsgPart where
  | text (s : Str)
  | other (kind : Str)
deriving DecidableEq, Repr

/-- A retained message of the pi JSON-mode stream. -/
structure Message where
  role : Str
  content : List MsgPart
deriving DecidableEq, Repr

/-- The first text part of a message's content, if any (the inner loop of
`getFinalOutput`). -/
def firstTextPart : List MsgPart → Option Str
  | [] => none
  | MsgPart.text s :: _ => some s
  | MsgPart.other _ :: rest => firstTextPart rest

/-- The backwards scan of `getFinalOutput`, on the reversed history: at an
assistant message return its first text part; fall through — also past a
text-free assistant message — otherwise. -/
def finalOutputRev : List Message → Str
  | [] => []
  | m :: rest =>
    if m.role = "assistant".toList then
      match firstTextPart m.content with
      | some s => s
      | none => finalOutputRev rest
    else finalOutputRev rest

/-- The `getFinalOutput`. -/
def getFinalOutput (messages : List Message) : Str :=
  finalOutputRev messages.reverse

/-- The claim's reading of the output extraction, taken literally: the
text of the *last* assistant-role message (empty when that message has no
text part), and the empty string when there is no assistant message. -/
def lastAssistantText (messages : List Message) : Str :=
  match (messages.filter (fun m => m.role = "assistant".toList)).getLast? with
  | some m => (firstTextPart m.content).getD []
  | none => []

/- ============================================================
   `formatReport` (code-review.ts lines 828–921)
   ============================================================ -/

/-- Concatenation of a list of strings. -/
def concatStrs (l : List Str) : Str := l.foldr (fun a b => a ++ b) []

/-- The `formatFinding`. -/
def formatFinding (f : ConsolidatedFinding) (totalAgents : ℕ) : Str :=
  "**[Consensus: ".toList ++ natToStr f.agents.length ++ "/".toList ++
    natToStr totalAgents ++ "]** `".toList ++ f.file ++ ":".toList ++
    qToStr f.line ++ "` — **".toList ++ f.title ++ "**\n  ".toList ++
    f.description ++ "\n".toList ++
    (match f.suggestion with
     | some s =>
       if s ≠ [] then
         "  ```suggestion\n  ".toList ++ s ++ "\n  ```\n".toList
       else []
     | none => []) ++
    "\n".toList

/-- The aggregated failed-agents warning line. -/
def failedNote (failed : List ReviewAgentResult) : Str :=
  "> **Note:** ".toList ++ natToStr failed.length ++
    " agent(s) failed: ".toList ++
    (joinStr (", ".toList) (failed.map (fun r =>
      r.displayName ++ " (".toList ++
        (match r.error with
         | some e => if e ≠ [] then e else "unknown error".toList
         | none => "unknown error".toList) ++ ")".toList)) ++
    "\n\n".toList)

/-- The no-issues line emitted when the consolidated list is empty. -/
def noIssuesLine : Str :=
  "**No issues found.** All agents report clean code.\n\n".toList

/-- One severity block: header, count, and the formatted findings; empty
when no finding has this severity. -/
def severitySection (header : Str) (fs : List ConsolidatedFinding)
    (totalAgents : ℕ) : Str :=
  if 0 < fs.length then
    header ++ natToStr fs.length ++ " found\n\n".toList ++
      concatStrs (fs.map (fun f => formatFinding f totalAgents))
  else []

/-- One row of the per-agent score table. -/
def scoreRow (r : ReviewAgentResult) : Str :=
  "| ".toList ++ r.displayName ++ " | ".toList ++ r.model ++ " | ".toList ++
    (match r.output with
     | some o => qToStr o.score
     | none => "-".toList) ++ "/10 | ".toList ++
    (match r.output with
     | some o => natToStr o.findings.length
     | none => natToStr 0) ++ " |\n".toList

/-- The report header: agent/model counts, names, branches, file and
commit counts. -/
def reportHeader (successfulAgents : List ReviewAgentResult)
    (branch baseBranch : Str) (filesChanged commitCount : ℕ) : Str :=
  "## Code Review Results (".toList ++ natToStr successfulAgents.length ++
    " agents, ".toList ++
    natToStr (successfulAgents.map (fun r => r.model)).dedup.length ++
    " models)\n\n".toList ++
    "**Agents used:** ".toList ++
    joinStr (", ".toList) (successfulAgents.map (fun r => r.displayName)) ++
    "\n".toList ++
    "**Branch:** ".toList ++ branch ++ " → ".toList ++ baseBranch ++
    "\n".toList ++
    "**Files changed:** ".toList ++ natToStr filesChanged ++
    " | **Commits:** ".toList ++ natToStr commitCount ++ "\n\n".toList

/-- The severity sections, per-agent score table and summary paragraph
(everything after the no-issues line). -/
def reportRest (successfulAgents : List ReviewAgentResult)
    (findings : List ConsolidatedFinding) (totalAgents : ℕ) : Str :=
  severitySection ("### Critical Issues (must fix) — ".toList)
      (findings.filter (fun f => f.severity = Severity.critical)) totalAgents ++
    severitySection ("### Warnings (should fix) — ".toList)
      (findings.filter (fun f => f.severity = Severity.warning)) totalAgents ++
    severitySection ("### Suggestions (nice to have) — ".toList)
      (findings.filter (fun f => f.severity = Severity.suggestion)) totalAgents ++
    (if 0 < successfulAgents.length then
      ("### Per-Agent Scores\n\n".toList ++
        "| Agent | Model | Score | Findings |\n".toList ++
        "|-------|-------|-------|----------|\n".toList ++
        concatStrs (successfulAgents.map scoreRow) ++ "\n".toList)
     else []) ++
    (if 0 < successfulAgents.length then
      ("### Summary\n\n".toList ++
        (if 0 < ((successfulAgents.filter (fun r =>
              match r.output with
              | some o => o.summary ≠ []
              | none => false)).map (fun r =>
                match r.output with
                | some o => o.summary
                | none => [])).length then
          joinStr [' '] ((successfulAgents.filter (fun r =>
              match r.output with
              | some o => o.summary ≠ []
              | none => false)).map (fun r =>
                match r.output with
                | some o => o.summary
                | none => [])) ++ "\n".toList
        else
          "Review completed with ".toList ++ natToStr findings.length ++
            " total finding(s) across ".toList ++
            natToStr successfulAgents.length ++ " agents.\n".toList))
     else [])

/-- The `formatReport`: header, failed-agent note, no-issues line, severity
sections, score table and summary, concatenated in source order. -/
def formatReport (results : List ReviewAgentResult)
    (findings : List ConsolidatedFinding) (branch baseBranch : Str)
    (filesChanged commitCount totalAgents : ℕ) : Str :=
  reportHeader (results.filter (fun r => r.output.isSome)) branch baseBranch
      filesChanged commitCount ++
    ((if 0 < (results.filter (fun r => r.output.isNone)).length then
        failedNote (results.filter (fun r => r.output.isNone))
      else []) ++
     ((if findings.length = 0 then noIssuesLine else []) ++
      reportRest (results.filter (fun r => r.output.isSome)) findings
        totalAgents))

/- ============================================================
   Concrete parser inputs
   ============================================================ -/

/-- The text with braces and findings mapped to an empty array: a
zero-findings success. -/
def emptyFindingsText : Str := "\x7b\"findings\": []\x7d".toList

/-- The parsed object of `emptyFindingsText`. -/
def emptyFindingsJson : JsonValue :=
  JsonValue.obj [("findings".toList, JsonValue.arr [])]

/-- The text whose findings field is a JSON-valid array containing only
`null`. -/
def nullFindingsText : Str := "\x7b\"findings\": [null]\x7d".toList

/-- A findings object with score 0. -/
def scoreZeroText : Str := "\x7b\"findings\": [], \"score\": 0\x7d".toList

/-- A findings object with score 15. -/
def scoreFifteenText : Str := "\x7b\"findings\": [], \"score\": 15\x7d".toList

/-- A findings object with the non-numeric score `"nine"`. -/
def scoreNineText : Str :=
  "\x7b\"findings\": [], \"score\": \"nine\"\x7d".toList

/-- A history whose last assistant message has no text part (only a tool
call), after an assistant message with text. -/
def trailingToolMessages : List Message :=
  [{ role := "assistant".toList, content := [MsgPart.text ("hello".toList)] },
   { role := "assistant".toList,
     content := [MsgPart.other ("toolCall".toList)] }]

/-- A failed agent result (null output). -/
def failedAgentResult : ReviewAgentResult :=
  { model := "m".toList, displayName := "A".toList, output := none,
    error := some ("boom".toList), exitCode := 1 }

/- ============================================================
   Theorems: ordering of the consolidated list
   ============================================================ -/

theorem cmpGroups_lt_iff (a b : ConsolidatedFinding) :
    cmpGroups a b < 0 ↔
      (b.consensusScore < a.consensusScore ∨
        (a.consensusScore = b.consensusScore ∧
          SEVERITY_WEIGHT b.severity < SEVERITY_WEIGHT a.severity)) := by
  unfold cmpGroups
  by_cases h : a.consensusScore = b.consensusScore <;> simp [h]

theorem rankedBefore_of_lt {a b : ConsolidatedFinding}
    (h : cmpGroups a b < 0) : rankedBefore a b := by
  rw [cmpGroups_lt_iff] at h
  unfold rankedBefore
  omega

theorem rankedBefore_of_not_lt {a b : ConsolidatedFinding}
    (h : ¬ cmpGroups a b < 0) : rankedBefore b a := by
  rw [cmpGroups_lt_iff] at h
  unfold rankedBefore
  omega

theorem rankedBefore_trans {a b c : ConsolidatedFinding}
    (h1 : rankedBefore a b) (h2 : rankedBefore b c) : rankedBefore a c := by
  unfold rankedBefore at *
  omega

theorem mem_insertByCmp {z x : ConsolidatedFinding} :
    ∀ {l : List ConsolidatedFinding}, z ∈ insertByCmp x l ↔ z = x ∨ z ∈ l := by
  intro l
  induction l with
  | nil => simp [insertByCmp]
  | cons y ys ih =>
    simp only [insertByCmp]
    split
    · simp [List.mem_cons]
    · simp only [List.mem_cons, ih]
      tauto

theorem perm_insertByCmp (x : ConsolidatedFinding) :
    ∀ l : List ConsolidatedFinding, List.Perm (insertByCmp x l) (x :: l) := by
  intro l
  induction l with
  | nil => exact List.Perm.refl _
  | cons y ys ih =>
    simp only [insertByCmp]
    split
    · exact List.Perm.refl _
    · exact (ih.cons y).trans (List.Perm.swap x y ys)

theorem foldl_insertByCmp_perm :
    ∀ (l acc : List ConsolidatedFinding),
      List.Perm (l.foldl (fun acc g => insertByCmp g acc) acc) (l ++ acc) := by
  intro l
  induction l with
  | nil => intro acc; simp
  | cons g gs ih =>
    intro acc
    simp only [List.foldl_cons, List.cons_append]
    refine ((ih (insertByCmp g acc)).trans ?_)
    refine (List.Perm.append_left gs (perm_insertByCmp g acc)).trans ?_
    exact List.perm_middle

theorem sortGroups_perm (l : List ConsolidatedFinding) : List.Perm (sortGroups l) l := by
  have h := foldl_insertByCmp_perm l []
  simpa [sortGroups] using h

theorem sorted_insertByCmp {x : ConsolidatedFinding} :
    ∀ {l : List ConsolidatedFinding}, List.Sorted rankedBefore l →
      List.Sorted rankedBefore (insertByCmp x l) := by
  intro l
  induction l with
  | nil => intro _; simp [insertByCmp]
  | cons y ys ih =>
    intro h
    rw [List.sorted_cons] at h
    obtain ⟨hy, hys⟩ := h
    simp only [insertByCmp]
    split
    next hlt =>
      rw [List.sorted_cons]
      refine ⟨?_, ?_⟩
      · intro z hz
        rcases List.mem_cons.mp hz with rfl | hz'
        · exact rankedBefore_of_lt hlt
        · exact rankedBefore_trans (rankedBefore_of_lt hlt) (hy z hz')
      · rw [List.sorted_cons]
        exact ⟨hy, hys⟩
    next hnlt =>
      rw [List.sorted_cons]
      refine ⟨?_, ih hys⟩
      intro z hz
      rcases mem_insertByCmp.mp hz with rfl | hz'
      · exact rankedBefore_of_not_lt hnlt
      · exact hy z hz'

theorem sortGroups_sorted (l : List ConsolidatedFinding) :
    List.Sorted rankedBefore (sortGroups l) := by
  suffices h : ∀ (l acc : List ConsolidatedFinding),
      List.Sorted rankedBefore acc →
      List.Sorted rankedBefore (l.foldl (fun acc g => insertByCmp g acc) acc) by
    exact h l [] (by simp)
  intro l
  induction l with
  | nil => intro acc h; simpa using h
  | cons g gs ih =>
    intro acc h
    simp only [List.foldl_cons]
    exact ih _ (sorted_insertByCmp h)

/-- C2: the consolidator's output is sorted by descending `consensusScore`
with ties broken by descending severity weight; on the scenario with a
critical finding from one agent, a warning finding from three agents, and a
suggestion finding from one agent, the order is the warning group (score
6), the critical group (score 3), then the suggestion group (score 1). -/
theorem consolidate_ranking_sorted :
    (∀ results, List.Sorted rankedBefore (consolidateFindings results)) ∧
    (consolidateFindings rankingExample).map
        (fun g => (g.severity, g.consensusScore, g.agents.length)) =
      [(Severity.warning, 6, 3), (Severity.critical, 3, 1),
       (Severity.suggestion, 1, 1)] := by
  refine ⟨?_, by decide⟩
  intro results
  exact sortGroups_sorted _

/- ============================================================
   Theorems: the similarity line window
   ============================================================ -/

/-- C3: for two findings on the same file, a line distance above 15 forces
similarity 0 (they can never merge), while at distance exactly 15 the
word-overlap similarity is what `findingSimilarity` returns (so merging is
possible). -/
theorem findingSimilarity_line_window (a b : ReviewFinding)
    (hf : a.file = b.file) :
    (15 < jsAbs (qSub a.line b.line) → findingSimilarity a b = 0) ∧
    (jsAbs (qSub a.line b.line) = 15 →
      findingSimilarity a b = wordOverlap a b) := by
  refine ⟨?_, ?_⟩
  · intro h
    unfold findingSimilarity
    rw [if_neg (by simp [hf]), if_pos h]
  · intro h
    unfold findingSimilarity
    rw [if_neg (by simp [hf]), if_neg (by rw [h]; norm_num)]

/-- Witness for C3 at concrete findings: 16 lines apart the similarity is
0; exactly 15 lines apart it is the word-overlap value. -/
theorem findingSimilarity_line_window_witness :
    (15 < jsAbs (qSub warnFinding.line farFinding.line) ∧
      findingSimilarity warnFinding farFinding = 0) ∧
    (jsAbs (qSub warnFinding.line edgeFinding.line) = 15 ∧
      findingSimilarity warnFinding edgeFinding =
        wordOverlap warnFinding edgeFinding) :=
  ⟨⟨by decide,
    (findingSimilarity_line_window warnFinding farFinding rfl).1 (by decide)⟩,
   ⟨by decide,
    (findingSimilarity_line_window warnFinding edgeFinding rfl).2 (by decide)⟩⟩

/- ============================================================
   Theorems: consolidation invariants (C7)
   ============================================================ -/

theorem mergedSuggestion_self (s : Option Str) : mergedSuggestion s s = s := by
  cases s with
  | none => rfl
  | some t =>
    unfold mergedSuggestion
    by_cases h : t = []
    · simp [h]
    · simp [h]

theorem newGroup_inv (f : ReviewFinding) (a : Str) : GroupInv (newGroup f a) := by
  unfold GroupInv newGroup
  simp

theorem mergeInto_inv {g : ConsolidatedFinding} (f : ReviewFinding) (a : Str)
    (h : GroupInv g) : GroupInv (mergeInto g f a) := by
  obtain ⟨hne, hnd, _⟩ := h
  refine ⟨?_, ?_, rfl⟩
  · unfold mergeInto mergedAgents
    split
    · simpa using hne
    · simp
  · unfold mergeInto mergedAgents
    split
    · simpa using hnd
    · simp_all [List.nodup_append]

theorem mergeInto_mono (g : ConsolidatedFinding) (f : ReviewFinding) (a : Str)
    (hsc : g.consensusScore = g.agents.length * SEVERITY_WEIGHT g.severity) :
    SEVERITY_WEIGHT g.severity ≤ SEVERITY_WEIGHT (mergeInto g f a).severity ∧
    g.consensusScore ≤ (mergeInto g f a).consensusScore := by
  have hw : SEVERITY_WEIGHT g.severity ≤ SEVERITY_WEIGHT (mergedSeverity g f) := by
    unfold mergedSeverity
    split <;> omega
  have hlen : g.agents.length ≤ (mergedAgents g a).length := by
    unfold mergedAgents
    split <;> simp
  refine ⟨hw, ?_⟩
  calc g.consensusScore = g.agents.length * SEVERITY_WEIGHT g.severity := hsc
    _ ≤ (mergedAgents g a).length * SEVERITY_WEIGHT (mergedSeverity g f) :=
        Nat.mul_le_mul hlen hw
    _ = (mergeInto g f a).consensusScore := rfl

theorem bestGroupAux_mem (f : ReviewFinding) :
    ∀ (l : List ConsolidatedFinding) (st : (Option (ℕ × ConsolidatedFinding) × ℚ) × ℕ)
      (i : ℕ) (g : ConsolidatedFinding),
      (bestGroupAux f st l).1.1 = some (i, g) →
      st.1.1 = some (i, g) ∨ g ∈ l := by
  intro l
  induction l with
  | nil =>
    intro st i g h
    exact Or.inl h
  | cons y ys ih =>
    intro st i g h
    simp only [bestGroupAux] at h
    rcases ih _ i g h with h' | h'
    · by_cases hlt : st.1.2 < findingSimilarity f (groupRep y)
      · rw [if_pos hlt] at h'
        simp only at h'
        right
        rw [List.mem_cons]
        left
        exact ((Prod.mk.injEq _ _ _ _).mp (Option.some.inj h')).2.symm
      · rw [if_neg hlt] at h'
        exact Or.inl h'
    · exact Or.inr (List.mem_cons_of_mem _ h')

theorem bestGroup_mem {f : ReviewFinding} {groups : List ConsolidatedFinding}
    {i : ℕ} {g : ConsolidatedFinding} {s : ℚ}
    (h : bestGroup f groups = (some (i, g), s)) : g ∈ groups := by
  unfold bestGroup at h
  have h1 : (bestGroupAux f ((none, 0), 0) groups).1.1 = some (i, g) := by
    rw [h]
  rcases bestGroupAux_mem f groups _ i g h1 with h' | h'
  · exact absurd h' (by simp)
  · exact h'

theorem insertFinding_inv {groups : List ConsolidatedFinding}
    {fa : ReviewFinding × Str} (h : ∀ g ∈ groups, GroupInv g) :
    ∀ g' ∈ insertFinding groups fa, GroupInv g' := by
  intro g' hg'
  unfold insertFinding at hg'
  split at hg'
  next i g s heq =>
    split at hg'
    · rcases List.mem_or_eq_of_mem_set hg' with hmem | rfl
      · exact h _ hmem
      · exact mergeInto_inv _ _ (h _ (bestGroup_mem heq))
    · rcases List.mem_append.mp hg' with hmem | hmem
      · exact h _ hmem
      · rw [List.mem_singleton] at hmem
        subst hmem
        exact newGroup_inv _ _
  next s heq =>
    rcases List.mem_append.mp hg' with hmem | hmem
    · exact h _ hmem
    · rw [List.mem_singleton] at hmem
      subst hmem
      exact newGroup_inv _ _

theorem foldGroups_inv :
    ∀ (l : List (ReviewFinding × Str)) (g : ConsolidatedFinding),
      g ∈ foldGroups l → GroupInv g := by
  suffices h : ∀ (l : List (ReviewFinding × Str)) (acc : List ConsolidatedFinding),
      (∀ g ∈ acc, GroupInv g) →
      ∀ g ∈ l.foldl insertFinding acc, GroupInv g by
    intro l g hg
    exact h l [] (by simp) g hg
  intro l
  induction l with
  | nil => intro acc hacc; simpa using hacc
  | cons fa rest ih =>
    intro acc hacc
    simp only [List.foldl_cons]
    exact ih _ (insertFinding_inv hacc)

/-- C7: every group the consolidator builds — at every intermediate point
of the grouping fold and in the final output — has a non-empty,
duplicate-free agents list, and merging a finding into a group never
decreases its severity weight or its consensus score. -/
theorem consolidated_group_invariants :
    (∀ (l : List (ReviewFinding × Str)) (g : ConsolidatedFinding),
        g ∈ foldGroups l → g.agents ≠ [] ∧ g.agents.Nodup) ∧
    (∀ (results : List ReviewAgentResult) (g : ConsolidatedFinding),
        g ∈ consolidateFindings results → g.agents ≠ [] ∧ g.agents.Nodup) ∧
    (∀ (g : ConsolidatedFinding) (f : ReviewFinding) (a : Str),
        g.consensusScore = g.agents.length * SEVERITY_WEIGHT g.severity →
        SEVERITY_WEIGHT g.severity ≤ SEVERITY_WEIGHT (mergeInto g f a).severity ∧
        g.consensusScore ≤ (mergeInto g f a).consensusScore) := by
  refine ⟨?_, ?_, ?_⟩
  · intro l g hg
    obtain ⟨h1, h2, _⟩ := foldGroups_inv l g hg
    exact ⟨h1, h2⟩
  · intro results g hg
    have hg' : g ∈ foldGroups (flattenResults results) :=
      ((sortGroups_perm _).mem_iff).mp hg
    obtain ⟨h1, h2, _⟩ := foldGroups_inv _ g hg'
    exact ⟨h1, h2⟩
  · intro g f a hsc
    exact mergeInto_mono g f a hsc

/- ============================================================
   Theorems: deduplication of identical findings (C1)
   ============================================================ -/

theorem findingSimilarity_same (a b : ReviewFinding) (hfile : a.file = b.file)
    (hline : a.line = b.line) (ht : a.title = b.title)
    (hd : a.description = b.description)
    (hw : extractSignificantWords (a.title ++ [' '] ++ a.description) ≠ []) :
    findingSimilarity a b = 1 := by
  unfold findingSimilarity
  rw [if_neg (by simp [hfile])]
  have h0 : qSub a.line b.line = 0 := by
    unfold qSub
    rw [hline, sub_self]
    simp
  rw [h0]
  have habs : jsAbs 0 = 0 := by
    unfold jsAbs
    rw [if_neg (lt_irrefl 0)]
  rw [habs, if_neg (by norm_num)]
  unfold wordOverlap
  rw [← ht, ← hd]
  have hlen : (extractSignificantWords (a.title ++ [' '] ++ a.description)).length ≠ 0 := by
    simpa [List.length_eq_zero] using hw
  rw [if_neg (by simpa using hw)]
  have hfil : (extractSignificantWords (a.title ++ [' '] ++ a.description)).filter
      (fun w => w ∈ extractSignificantWords (a.title ++ [' '] ++ a.description)) =
      extractSignificantWords (a.title ++ [' '] ++ a.description) := by
    rw [List.filter_eq_self]
    intro w hw'
    simpa using hw'
  rw [hfil, min_self, Rat.mkRat_eq_divInt, Rat.divInt_self']
  exact_mod_cast hlen

theorem mergeInto_of_same (g : ConsolidatedFinding) (f : ReviewFinding)
    (a : Str) (hsev : g.severity = f.severity)
    (htitle : g.title = f.title) (hdesc : g.description = f.description)
    (hsugg : g.suggestion = f.suggestion) (hmem : a ∉ g.agents) :
    mergeInto g f a =
      { g with agents := g.agents ++ [a],
               consensusScore :=
                 (g.agents.length + 1) * SEVERITY_WEIGHT g.severity } := by
  unfold mergeInto mergedAgents mergedSeverity mergedTitleDesc
  rw [if_neg hmem, hsev, if_neg (lt_irrefl _), hdesc, if_neg (lt_irrefl _)]
  rw [hsugg, mergedSuggestion_self, htitle]
  simp

/-- C1 (corrected): three agents with distinct display names each reporting
a finding word-for-word identical to `f` — provided the title and
description contain at least one significant word — consolidate into
exactly one group carrying the fields of `f`, the three agents, and consensus
score `3 × severityWeight`. -/
theorem consolidate_identical_three (f : ReviewFinding) (a1 a2 a3 : Str)
    (h12 : a1 ≠ a2) (h13 : a1 ≠ a3) (h23 : a2 ≠ a3)
    (hw : extractSignificantWords (f.title ++ [' '] ++ f.description) ≠ []) :
    consolidateFindings (identicalResults f a1 a2 a3) =
      [{ file := f.file, line := f.line, severity := f.severity,
         category := f.category, title := f.title,
         description := f.description, suggestion := f.suggestion,
         agents := [a1, a2, a3],
         consensusScore := 3 * SEVERITY_WEIGHT f.severity }] := by
  have hsim1 : findingSimilarity f (groupRep (newGroup f a1)) = 1 :=
    findingSimilarity_same _ _ rfl rfl rfl rfl hw
  have hbg1 : bestGroup f [newGroup f a1] = (some (0, newGroup f a1), 1) := by
    unfold bestGroup
    simp only [bestGroupAux, hsim1]
    rw [if_pos (by norm_num)]
  have hth : SIMILARITY_THRESHOLD ≤ (1 : ℚ) := by decide
  have h2 : insertFinding [newGroup f a1] (f, a2) =
      [mergeInto (newGroup f a1) f a2] := by
    simp only [insertFinding, hbg1]
    rw [if_pos hth]
    rfl
  have hm2 : mergeInto (newGroup f a1) f a2 =
      { file := f.file, line := f.line, severity := f.severity,
        category := f.category, title := f.title,
        description := f.description, suggestion := f.suggestion,
        agents := [a1, a2],
        consensusScore := 2 * SEVERITY_WEIGHT f.severity } := by
    rw [mergeInto_of_same (newGroup f a1) f a2 rfl rfl rfl rfl
      (by simp [newGroup]; exact fun h => h12 h.symm)]
    rfl
  set G2 : ConsolidatedFinding :=
    { file := f.file, line := f.line, severity := f.severity,
      category := f.category, title := f.title,
      description := f.description, suggestion := f.suggestion,
      agents := [a1, a2],
      consensusScore := 2 * SEVERITY_WEIGHT f.severity } with hG2
  have hsim2 : findingSimilarity f (groupRep G2) = 1 :=
    findingSimilarity_same _ _ rfl rfl rfl rfl hw
  have hbg2 : bestGroup f [G2] = (some (0, G2), 1) := by
    unfold bestGroup
    simp only [bestGroupAux, hsim2]
    rw [if_pos (by norm_num)]
  have h3 : insertFinding [G2] (f, a3) = [mergeInto G2 f a3] := by
    simp only [insertFinding, hbg2]
    rw [if_pos hth]
    rfl
  have hm3 : mergeInto G2 f a3 =
      { file := f.file, line := f.line, severity := f.severity,
        category := f.category, title := f.title,
        description := f.description, suggestion := f.suggestion,
        agents := [a1, a2, a3],
        consensusScore := 3 * SEVERITY_WEIGHT f.severity } := by
    rw [mergeInto_of_same G2 f a3 rfl rfl rfl rfl
      (by
        rw [hG2]
        simp only [List.mem_cons, List.mem_singleton, List.not_mem_nil, or_false]
        push_neg
        exact ⟨Ne.symm h13, Ne.symm h23⟩)]
    rfl
  show sortGroups (foldGroups (flattenResults (identicalResults f a1 a2 a3))) = _
  have hflat : flattenResults (identicalResults f a1 a2 a3) =
      [(f, a1), (f, a2), (f, a3)] := rfl
  rw [hflat]
  unfold foldGroups
  simp only [List.foldl_cons, List.foldl_nil]
  have h1 : insertFinding [] (f, a1) = [newGroup f a1] := rfl
  rw [h1, h2, hm2, h3, hm3]
  rfl

/-- Counterexample for C1 as stated: a finding whose identical title
(`"xy"`) yields no significant words has self-similarity 0, so the three
identical copies do not merge and the consolidator returns three groups,
not one. -/
theorem consolidate_identical_counterexample :
    (consolidateFindings
        (identicalResults insignificantFinding ['A'] ['B'] ['C'])).length = 3 ∧
    ¬ (consolidateFindings
        (identicalResults insignificantFinding ['A'] ['B'] ['C'])).length = 1 := by
  decide

/-- Witness for C1 (corrected) at a concrete finding with significant
words and agents `"A"`, `"B"`, `"C"`. -/
theorem consolidate_identical_three_witness :
    (['A'] : Str) ≠ ['B'] ∧
    consolidateFindings (identicalResults warnFinding ['A'] ['B'] ['C']) =
      [{ file := warnFinding.file, line := warnFinding.line,
         severity := warnFinding.severity, category := warnFinding.category,
         title := warnFinding.title, description := warnFinding.description,
         suggestion := warnFinding.suggestion,
         agents := [['A'], ['B'], ['C']],
         consensusScore := 3 * SEVERITY_WEIGHT warnFinding.severity }] :=
  ⟨by decide,
   consolidate_identical_three warnFinding ['A'] ['B'] ['C']
     (by decide) (by decide) (by decide) (by decide)⟩

/-- Witness for C7: a concrete merge into a singleton warning group by a
new agent raises the severity weight from 2 to 3 and the score from 2 to
6. -/
theorem consolidated_group_invariants_witness :
    (newGroup warnFinding ['A']).consensusScore =
        (newGroup warnFinding ['A']).agents.length *
          SEVERITY_WEIGHT (newGroup warnFinding ['A']).severity ∧
    (SEVERITY_WEIGHT (newGroup warnFinding ['A']).severity ≤
        SEVERITY_WEIGHT
          (mergeInto (newGroup warnFinding ['A']) critFinding ['B']).severity ∧
      (newGroup warnFinding ['A']).consensusScore ≤
        (mergeInto (newGroup warnFinding ['A']) critFinding ['B']).consensusScore) :=
  ⟨by decide,
   consolidated_group_invariants.2.2 (newGroup warnFinding ['A']) critFinding ['B']
     (by decide)⟩

/- ============================================================
   Theorems: the concurrency-limited task runner (C5)
   ============================================================ -/

theorem set_ne_nil {γ : Type} {l : List γ} (h : l ≠ []) (i : ℕ) (a : γ) :
    l.set i a ≠ [] := by
  cases l with
  | nil => exact absurd rfl h
  | cons x xs => cases i <;> simp [List.set]

theorem runnerInit_inv {α β : Type} (items : List α) (fn : α → ℕ → β)
    {limit : ℕ} (hl : 0 < limit) :
    RunnerInv items fn (runnerInit β items.length limit) := by
  unfold RunnerInv runnerInit
  refine ⟨by simp, ?_, ?_, ?_, ?_, ?_, ?_, ?_⟩
  · intro h
    have hlen := congrArg List.length h
    simp at hlen
    omega
  · intro i v h
    simp only [List.getElem?_replicate] at h
    split at h <;> simp_all
  · intro w i h
    simp only [List.getElem?_replicate] at h
    split at h <;> simp_all
  · intro w w' i h _
    simp only [List.getElem?_replicate] at h
    split at h <;> simp_all
  · intro i _ h
    dsimp only at h
    omega
  · intro i hi _
    simp [List.getElem?_replicate, hi]
  · rintro ⟨w, hw⟩
    simp only [List.getElem?_replicate] at hw
    split at hw <;> simp_all

theorem stepFn_inv {α β : Type} {items : List α} {fn : α → ℕ → β}
    {s s' : RState β} {w : ℕ} {lab : RLabel}
    (hinv : RunnerInv items fn s)
    (hstep : stepFn items fn s w = some (s', lab)) :
    RunnerInv items fn s' ∧
    ((∃ c, lab = RLabel.claimed c) → ∀ i, isWritten s' i = isWritten s i) ∧
    (∀ i, lab = RLabel.ran i →
      isWritten s i = false ∧ isWritten s' i = true ∧
      ∀ j, j ≠ i → isWritten s' j = isWritten s j) := by
  obtain ⟨hlen, hne, hres, hrun, hdist, hclaim, hunc, hfin⟩ := hinv
  unfold stepFn at hstep
  split at hstep
  next => exact absurd hstep (by simp)
  next hw => exact absurd hstep (by simp)
  next hw =>
    have hwlt : w < s.workers.length :=
      (List.getElem?_eq_some_iff.mp hw).1
    split at hstep
    next hN =>
        have hx := Option.some.inj hstep
        have hs' : s' = RState.mk (s.nextIndex + 1) s.results
            (s.workers.set w WPhase.finished) := (congrArg Prod.fst hx).symm
        have hlab : lab = RLabel.claimed s.nextIndex :=
          (congrArg Prod.snd hx).symm
        subst hs'
        subst hlab
        refine ⟨⟨hlen, set_ne_nil hne _ _, hres, ?_, ?_, ?_, ?_, ?_⟩,
          fun _ i => rfl, fun i hc => nomatch hc⟩
        · dsimp only
          intro w' i h
          by_cases hww : w = w'
          · subst hww
            rw [List.getElem?_set_self hwlt] at h
            exact absurd h (by simp)
          · rw [List.getElem?_set_ne hww] at h
            obtain ⟨h1, h2, h3⟩ := hrun w' i h
            exact ⟨h1, by omega, h3⟩
        · dsimp only
          intro w1 w2 i h1 h2
          by_cases h1w : w = w1
          · subst h1w
            rw [List.getElem?_set_self hwlt] at h1
            exact absurd h1 (by simp)
          · by_cases h2w : w = w2
            · subst h2w
              rw [List.getElem?_set_self hwlt] at h2
              exact absurd h2 (by simp)
            · rw [List.getElem?_set_ne h1w] at h1
              rw [List.getElem?_set_ne h2w] at h2
              exact hdist w1 w2 i h1 h2
        · dsimp only
          intro i hiN hic
          rcases hclaim i hiN (by omega) with h | ⟨w0, hw0⟩
          · exact Or.inl h
          · right
            have hw0w : w ≠ w0 := by
              intro he
              subst he
              rw [hw] at hw0
              exact absurd hw0 (by simp)
            exact ⟨w0, by rw [List.getElem?_set_ne hw0w]; exact hw0⟩
        · dsimp only
          intro i hiN hge
          exact hunc i hiN (by omega)
        · dsimp only
          intro _
          omega
    next hN =>
        have hx := Option.some.inj hstep
        have hs' : s' = RState.mk (s.nextIndex + 1) s.results
            (s.workers.set w (WPhase.running s.nextIndex)) :=
          (congrArg Prod.fst hx).symm
        have hlab : lab = RLabel.claimed s.nextIndex :=
          (congrArg Prod.snd hx).symm
        subst hs'
        subst hlab
        refine ⟨⟨hlen, set_ne_nil hne _ _, hres, ?_, ?_, ?_, ?_, ?_⟩,
          fun _ i => rfl, fun i hc => nomatch hc⟩
        · dsimp only
          intro w' i h
          by_cases hww : w = w'
          · subst hww
            rw [List.getElem?_set_self hwlt] at h
            have hi : i = s.nextIndex :=
              (WPhase.running.inj (Option.some.inj h)).symm
            subst hi
            exact ⟨by omega, by omega, hunc s.nextIndex (by omega) (by omega)⟩
          · rw [List.getElem?_set_ne hww] at h
            obtain ⟨h1, h2, h3⟩ := hrun w' i h
            exact ⟨h1, by omega, h3⟩
        · dsimp only
          intro w1 w2 i h1 h2
          by_cases h1w : w = w1
          · by_cases h2w : w = w2
            · omega
            · subst h1w
              rw [List.getElem?_set_self hwlt] at h1
              rw [List.getElem?_set_ne h2w] at h2
              have hi : i = s.nextIndex :=
                (WPhase.running.inj (Option.some.inj h1)).symm
              subst hi
              obtain ⟨_, h2', _⟩ := hrun w2 s.nextIndex h2
              omega
          · by_cases h2w : w = w2
            · subst h2w
              rw [List.getElem?_set_self hwlt] at h2
              rw [List.getElem?_set_ne h1w] at h1
              have hi : i = s.nextIndex :=
                (WPhase.running.inj (Option.some.inj h2)).symm
              subst hi
              obtain ⟨_, h1', _⟩ := hrun w1 s.nextIndex h1
              omega
            · rw [List.getElem?_set_ne h1w] at h1
              rw [List.getElem?_set_ne h2w] at h2
              exact hdist w1 w2 i h1 h2
        · dsimp only
          intro i hiN hic
          by_cases hi : i = s.nextIndex
          · subst hi
            right
            exact ⟨w, by rw [List.getElem?_set_self hwlt]⟩
          · rcases hclaim i hiN (by omega) with h | ⟨w0, hw0⟩
            · exact Or.inl h
            · right
              have hw0w : w ≠ w0 := by
                intro he
                subst he
                rw [hw] at hw0
                exact absurd hw0 (by simp)
              exact ⟨w0, by rw [List.getElem?_set_ne hw0w]; exact hw0⟩
        · dsimp only
          intro i hiN hge
          exact hunc i hiN (by omega)
        · dsimp only
          rintro ⟨w', hw'⟩
          by_cases hww : w = w'
          · subst hww
            rw [List.getElem?_set_self hwlt] at hw'
            exact absurd hw' (by simp)
          · rw [List.getElem?_set_ne hww] at hw'
            have := hfin ⟨w', hw'⟩
            omega
  next i0 hw =>
    have hwlt : w < s.workers.length :=
      (List.getElem?_eq_some_iff.mp hw).1
    split at hstep
    next x hx =>
        have hxx := Option.some.inj hstep
        have hs' : s' = RState.mk s.nextIndex
            (s.results.set i0 (some (fn x i0)))
            (s.workers.set w WPhase.atLoop) := (congrArg Prod.fst hxx).symm
        have hlab : lab = RLabel.ran i0 := (congrArg Prod.snd hxx).symm
        subst hs'
        subst hlab
        obtain ⟨hi0N, hi0c, hres0⟩ := hrun w i0 hw
        have hi0len : i0 < s.results.length := by omega
        refine ⟨⟨by simp [hlen], set_ne_nil hne _ _, ?_, ?_, ?_, ?_, ?_, ?_⟩,
          ?_, ?_⟩
        · dsimp only
          intro i v h
          by_cases hii : i = i0
          · subst hii
            rw [List.getElem?_set_self hi0len] at h
            have hv := Option.some.inj (Option.some.inj h)
            exact ⟨x, hx, hv.symm⟩
          · rw [List.getElem?_set_ne (fun hh => hii hh.symm)] at h
            exact hres i v h
        · dsimp only
          intro w' j h
          by_cases hww : w = w'
          · subst hww
            rw [List.getElem?_set_self hwlt] at h
            exact absurd h (by simp)
          · rw [List.getElem?_set_ne hww] at h
            obtain ⟨hj1, hj2, hj3⟩ := hrun w' j h
            refine ⟨hj1, hj2, ?_⟩
            have hji : j ≠ i0 := by
              intro he
              subst he
              exact hww ((hdist w' w j h hw)).symm
            rw [List.getElem?_set_ne (fun hh => hji hh.symm)]
            exact hj3
        · dsimp only
          intro w1 w2 j h1 h2
          by_cases h1w : w = w1
          · subst h1w
            rw [List.getElem?_set_self hwlt] at h1
            exact absurd h1 (by simp)
          · by_cases h2w : w = w2
            · subst h2w
              rw [List.getElem?_set_self hwlt] at h2
              exact absurd h2 (by simp)
            · rw [List.getElem?_set_ne h1w] at h1
              rw [List.getElem?_set_ne h2w] at h2
              exact hdist w1 w2 j h1 h2
        · dsimp only
          intro i hiN hic
          by_cases hii : i = i0
          · subst hii
            left
            exact ⟨fn x i, by rw [List.getElem?_set_self hi0len]⟩
          · rcases hclaim i hiN hic with ⟨v, hv⟩ | ⟨w0, hw0⟩
            · left
              refine ⟨v, ?_⟩
              rw [List.getElem?_set_ne (fun hh => hii hh.symm)]
              exact hv
            · right
              have hw0w : w ≠ w0 := by
                intro he
                subst he
                rw [hw] at hw0
                have := WPhase.running.inj (Option.some.inj hw0)
                exact hii this.symm
              exact ⟨w0, by rw [List.getElem?_set_ne hw0w]; exact hw0⟩
        · dsimp only
          intro i hiN hge
          have hii : i ≠ i0 := by omega
          rw [List.getElem?_set_ne (fun hh => hii hh.symm)]
          exact hunc i hiN hge
        · dsimp only
          rintro ⟨w', hw'⟩
          by_cases hww : w = w'
          · subst hww
            rw [List.getElem?_set_self hwlt] at hw'
            exact absurd hw' (by simp)
          · rw [List.getElem?_set_ne hww] at hw'
            exact hfin ⟨w', hw'⟩
        · rintro ⟨c, hc⟩
          exact nomatch hc
        · intro i hi
          have hii : i0 = i := RLabel.ran.inj hi
          subst hii
          refine ⟨by simp [isWritten, hres0], ?_, ?_⟩
          · simp [isWritten, List.getElem?_set_self hi0len]
          · intro j hj
            unfold isWritten
            dsimp only
            rw [List.getElem?_set_ne (fun hh => hj hh.symm)]

    next hx => exact absurd hstep (by simp)

theorem runSched_inv {α β : Type} {items : List α} {fn : α → ℕ → β} :
    ∀ (sched : List ℕ) (s s' : RState β) (labels : List RLabel),
      RunnerInv items fn s →
      runSched items fn s sched = some (s', labels) →
      RunnerInv items fn s' ∧
      ∀ i : ℕ, labels.count (RLabel.ran i) +
          (if isWritten s i then 1 else 0) =
        (if isWritten s' i then 1 else 0) := by
  intro sched
  induction sched with
  | nil =>
    intro s s' labels hinv hrun
    unfold runSched at hrun
    have hx := Option.some.inj hrun
    have hs : s' = s := (congrArg Prod.fst hx).symm
    have hl : labels = [] := (congrArg Prod.snd hx).symm
    subst hs
    subst hl
    exact ⟨hinv, fun i => by simp⟩
  | cons w ws ih =>
    intro s s' labels hinv hrun
    unfold runSched at hrun
    split at hrun
    next => exact absurd hrun (by simp)
    next s1 lab hstep =>
      split at hrun
      next => exact absurd hrun (by simp)
      next s2 ls hrec =>
        have hx := Option.some.inj hrun
        have hs2 : s2 = s' := congrArg Prod.fst hx
        have hls : labels = lab :: ls := (congrArg Prod.snd hx).symm
        subst hs2
        subst hls
        obtain ⟨hinv1, hclaimlab, hranlab⟩ := stepFn_inv hinv hstep
        obtain ⟨hinv2, hcount⟩ := ih s1 _ ls hinv1 hrec
        refine ⟨hinv2, ?_⟩
        intro i
        cases lab with
        | claimed c =>
          have hwm : isWritten s1 i = isWritten s i := hclaimlab ⟨c, rfl⟩ i
          have hic := hcount i
          rw [hwm] at hic
          simp only [List.count_cons, beq_iff_eq, reduceCtorEq, if_false]
          omega
        | ran j =>
          obtain ⟨hw0, hw1, hwj⟩ := hranlab j rfl
          by_cases hij : i = j
          · subst hij
            have hic := hcount i
            rw [hw1] at hic
            rw [hw0]
            simp [List.count_cons] at hic ⊢
            omega
          · have hwm : isWritten s1 i = isWritten s i :=
              hwj i (fun h => hij h)
            have hic := hcount i
            rw [hwm] at hic
            have h2 : ¬ (RLabel.ran j = RLabel.ran i) := by
              intro h
              exact hij (RLabel.ran.inj h).symm
            have h3 : ¬ (RLabel.ran i = RLabel.ran j) := by
              intro h
              exact hij (RLabel.ran.inj h)
            simp only [List.count_cons, beq_iff_eq, h2, h3, if_false]
            omega

theorem count_filterMap_ranIdx (labels : List RLabel) (i : ℕ) :
    (labels.filterMap ranIdx).count i = labels.count (RLabel.ran i) := by
  induction labels with
  | nil => rfl
  | cons lab ls ih =>
    cases lab with
    | claimed c =>
      simp only [List.filterMap_cons, ranIdx, List.count_cons, beq_iff_eq,
        reduceCtorEq, if_false, ih]
      omega
    | ran j =>
      by_cases hij : j = i
      · subst hij
        simp only [List.filterMap_cons, ranIdx, List.count_cons, beq_iff_eq,
          if_pos rfl, ih]
      · have h2 : ¬ (RLabel.ran j = RLabel.ran i) := by
          intro h
          exact hij (RLabel.ran.inj h)
        simp only [List.filterMap_cons, ranIdx, List.count_cons, beq_iff_eq,
          if_neg hij, if_neg h2, ih]

/-- C5: the concurrency-limited map returns `[]` immediately for empty
input without spawning workers, and under every interleaving schedule that
drives every worker to completion, every input index `i` gets the result
of its own job at output index `i`, and the multiset of executed job
indices is exactly `{0, …, N−1}` — no item run twice, none skipped. -/
theorem mapWithConcurrencyLimit_correct {α β : Type} (items : List α)
    (concurrency : ℕ) (fn : α → ℕ → β) :
    (items = [] →
      mapWithConcurrencyLimit β items concurrency = MapWCLRun.immediate []) ∧
    (∀ s0 : RState β,
      mapWithConcurrencyLimit β items concurrency = MapWCLRun.concurrent s0 →
      ∀ (sched : List ℕ) (s' : RState β) (labels : List RLabel),
        runSched items fn s0 sched = some (s', labels) →
        allFinished s' →
        (∀ (i : ℕ) (x : α), items[i]? = some x →
          s'.results[i]? = some (some (fn x i))) ∧
        List.Perm (labels.filterMap ranIdx) (List.range items.length)) := by
  constructor
  · intro h
    subst h
    rfl
  · intro s0 h0 sched s' labels hrun hfinished
    unfold mapWithConcurrencyLimit at h0
    by_cases hempty : items.length = 0
    · rw [if_pos hempty] at h0
      exact absurd h0 (by simp)
    · rw [if_neg hempty] at h0
      have hs0 : s0 = runnerInit β items.length
          (effectiveLimit concurrency items.length) :=
        (MapWCLRun.concurrent.inj h0).symm
      subst hs0
      have hinv0 := @runnerInit_inv α β items fn
        (effectiveLimit concurrency items.length)
        (by unfold effectiveLimit; omega)
      obtain ⟨hinv', hcount⟩ := runSched_inv sched _ s' labels hinv0 hrun
      obtain ⟨hlen, hne, hres, hrun', hdist, hclaim, hunc, hfin⟩ := hinv'
      have hNlt : items.length < s'.nextIndex := by
        apply hfin
        cases hww : s'.workers with
        | nil => exact absurd hww hne
        | cons a as =>
          refine ⟨0, ?_⟩
          have ha : a = WPhase.finished :=
            hfinished a (by rw [hww]; exact List.mem_cons_self a as)
          simp [ha]
      have hdone : ∀ i : ℕ, i < items.length →
          ∃ v, s'.results[i]? = some (some v) := by
        intro i hi
        rcases hclaim i hi (by omega) with h | ⟨w0, hw0⟩
        · exact h
        · obtain ⟨hlt, hh⟩ := List.getElem?_eq_some_iff.mp hw0
          exact absurd (hh ▸ hfinished _ (List.getElem_mem hlt)) (by simp)
      constructor
      · intro i x hx
        have hi : i < items.length := (List.getElem?_eq_some_iff.mp hx).1
        obtain ⟨v, hv⟩ := hdone i hi
        obtain ⟨x', hx', hvx⟩ := hres i v hv
        rw [hx] at hx'
        have hxx : x = x' := Option.some.inj hx'
        subst hxx
        rw [hv, hvx]
      · rw [List.perm_iff_count]
        intro j
        rw [count_filterMap_ranIdx]
        have hc := hcount j
        have hw0 : isWritten
            (runnerInit β items.length
              (effectiveLimit concurrency items.length)) j = false := by
          by_cases hj : j < items.length <;>
            simp [isWritten, runnerInit, List.getElem?_replicate, hj]
        rw [hw0] at hc
        simp only [Bool.false_eq_true, if_false] at hc
        by_cases hj : j < items.length
        · obtain ⟨v, hv⟩ := hdone j hj
          have hw1 : isWritten s' j = true := by
            unfold isWritten
            rw [hv]
          rw [hw1] at hc
          simp only [if_true] at hc
          rw [List.count_eq_one_of_mem (List.nodup_range _)
            (List.mem_range.mpr hj)]
          omega
        · have hv : s'.results[j]? = none :=
            List.getElem?_eq_none (by omega)
          have hw1 : isWritten s' j = false := by
            unfold isWritten
            rw [hv]
          rw [hw1] at hc
          simp only [Bool.false_eq_true, if_false] at hc
          rw [List.count_eq_zero_of_not_mem (l := List.range items.length)
            (by simpa using hj)]
          omega

/-- Witness for C5: a two-item list with concurrency 1 under the
single-worker schedule; both jobs run exactly once and land at their own
indices. -/
theorem mapWithConcurrencyLimit_correct_witness :
    mapWithConcurrencyLimit ℕ ([] : List ℕ) 4 = MapWCLRun.immediate [] ∧
    runSched [10, 20] (fun x i => x + i)
        (runnerInit ℕ 2 (effectiveLimit 1 2)) [0, 0, 0, 0, 0] =
      some (RState.mk 3 [some 10, some 21] [WPhase.finished],
        [RLabel.claimed 0, RLabel.ran 0, RLabel.claimed 1, RLabel.ran 1,
         RLabel.claimed 2]) ∧
    (∀ (i : ℕ) (x : ℕ), ([10, 20] : List ℕ)[i]? = some x →
      (RState.mk 3 [some 10, some 21] [WPhase.finished]).results[i]? =
        some (some (x + i))) ∧
    List.Perm
      ([RLabel.claimed 0, RLabel.ran 0, RLabel.claimed 1, RLabel.ran 1,
        RLabel.claimed 2].filterMap ranIdx) (List.range 2) :=
  ⟨(mapWithConcurrencyLimit_correct ([] : List ℕ) 4 (fun x i => x + i)).1 rfl,
   by decide,
   ((mapWithConcurrencyLimit_correct [10, 20] 1 (fun x i => x + i)).2
     (runnerInit ℕ 2 (effectiveLimit 1 2)) rfl [0, 0, 0, 0, 0]
     (RState.mk 3 [some 10, some 21] [WPhase.finished])
     [RLabel.claimed 0, RLabel.ran 0, RLabel.claimed 1, RLabel.ran 1,
      RLabel.claimed 2] (by decide) (by decide)).1,
   ((mapWithConcurrencyLimit_correct [10, 20] 1 (fun x i => x + i)).2
     (runnerInit ℕ 2 (effectiveLimit 1 2)) rfl [0, 0, 0, 0, 0]
     (RState.mk 3 [some 10, some 21] [WPhase.finished])
     [RLabel.claimed 0, RLabel.ran 0, RLabel.claimed 1, RLabel.ran 1,
      RLabel.claimed 2] (by decide) (by decide)).2⟩

/- ============================================================
   Theorems: the output parser (C6, C9, C4)
   ============================================================ -/

theorem validateFindings_isSome (elems : List JsonValue) :
    (validateFindings elems).isSome =
      elems.all (fun e => match e with
        | JsonValue.null => false
        | _ => true) := by
  induction elems with
  | nil => rfl
  | cons e rest ih =>
    cases e with
    | null => rfl
    | bool b =>
      simp only [validateFindings, List.all_cons, Bool.true_and]
      split
      · simp [Option.isSome_map, ih]
      · simp [ih]
    | num q =>
      simp only [validateFindings, List.all_cons, Bool.true_and]
      split
      · simp [Option.isSome_map, ih]
      · simp [ih]
    | str s =>
      simp only [validateFindings, List.all_cons, Bool.true_and]
      split
      · simp [Option.isSome_map, ih]
      · simp [ih]
    | arr l =>
      simp only [validateFindings, List.all_cons, Bool.true_and]
      split
      · simp [Option.isSome_map, ih]
      · simp [ih]
    | obj l =>
      simp only [validateFindings, List.all_cons, Bool.true_and]
      split
      · simp [Option.isSome_map, ih]
      · simp [ih]

theorem candidateResult_isSome (c : Str) :
    (candidateResult c).isSome = amendedValidCandidate c := by
  unfold candidateResult amendedValidCandidate
  cases hp : jsonParse c with
  | none => rfl
  | some v =>
    cases hm : getMember v findingsKey with
    | none => simp [hm]
    | some fv =>
      cases fv with
      | null => simp [hm]
      | bool b => simp [hm]
      | num q => simp [hm]
      | str s => simp [hm]
      | obj l => simp [hm]
      | arr elems =>
        simp only [hm]
        rw [← validateFindings_isSome]
        cases hval : validateFindings elems with
        | none => rfl
        | some findings => rfl

theorem tryCandidates_isSome (l : List Str) :
    (tryCandidates l).isSome = l.any (fun c => (candidateResult c).isSome) := by
  induction l with
  | nil => rfl
  | cons c rest ih =>
    unfold tryCandidates
    cases hc : candidateResult c with
    | none => simp [hc, ih]
    | some out => simp [hc]

/-- C6 (corrected): the parser never throws and succeeds exactly when some
candidate of the four extraction strategies parses as JSON with an
array-typed `findings` field *none of whose elements is `null`* — a `null`
entry makes the per-finding validation throw and the candidate is
abandoned; with no such candidate the parser returns a definite failure,
never an empty-but-successful result. -/
theorem parseReviewOutput_success_iff (t : Str) :
    (parseReviewOutput t).isSome =
      (reviewCandidates t).any amendedValidCandidate := by
  unfold parseReviewOutput
  rw [tryCandidates_isSome]
  have h : (fun c => (candidateResult c).isSome) = amendedValidCandidate :=
    funext candidateResult_isSome
  rw [h]

/-- Counterexample for C6 as stated: `nullFindingsText` has a candidate
that parses as JSON with an array-typed `findings` field, yet the parser
returns the failure signal. -/
theorem parseReviewOutput_null_counterexample :
    parseReviewOutput nullFindingsText = none ∧
    (reviewCandidates nullFindingsText).any claimValidCandidate = true := by
  decide

theorem tryCandidates_append_of_none {l1 : List Str} (l2 : List Str)
    (h : ∀ c ∈ l1, candidateResult c = none) :
    tryCandidates (l1 ++ l2) = tryCandidates l2 := by
  induction l1 with
  | nil => rfl
  | cons c rest ih =>
    have hc : candidateResult c = none := h c (List.mem_cons_self c rest)
    simp only [List.cons_append, tryCandidates, hc]
    exact ih (fun c' hc' => h c' (List.mem_cons_of_mem c hc'))

/-- C9: when the first winning candidate parses to an object whose
`findings` is the empty array and that has no `summary` or `score` member,
the parser reports success with zero findings, empty summary and the
default score 5 — distinct from parse failure. -/
theorem parseReviewOutput_empty_findings (t : Str) (l1 l2 : List Str)
    (c : Str) (v : JsonValue)
    (hsplit : reviewCandidates t = l1 ++ c :: l2)
    (hfail : ∀ c' ∈ l1, candidateResult c' = none)
    (hv : jsonParse c = some v)
    (hfind : getMember v findingsKey = some (JsonValue.arr []))
    (hsum : getMember v summaryKey = none)
    (hscore : getMember v scoreKey = none) :
    parseReviewOutput t = some { findings := [], summary := [], score := 5 } := by
  unfold parseReviewOutput
  rw [hsplit, tryCandidates_append_of_none (c :: l2) hfail]
  have hc : candidateResult c = some { findings := [], summary := [], score := 5 } := by
    unfold candidateResult
    rw [hv]
    simp only [hfind, hsum, hscore]
    decide
  simp [tryCandidates, hc]

/-- Witness for C9 at the concrete input `emptyFindingsText`. -/
theorem parseReviewOutput_empty_findings_witness :
    jsonParse emptyFindingsText = some emptyFindingsJson ∧
    parseReviewOutput emptyFindingsText =
      some { findings := [], summary := [], score := 5 } :=
  ⟨rfl,
   parseReviewOutput_empty_findings emptyFindingsText []
     [emptyFindingsText, emptyFindingsText] emptyFindingsText
     emptyFindingsJson (by decide) (by simp) rfl rfl rfl rfl⟩

/-- C4 (corrected): the parser clamps numeric scores into `[1, 10]` and
defaults to 5 when the score is missing or non-numeric; `0` also
normalizes to 5, because `Number(parsed.score) || 5` treats the falsy `0`
as missing — not to 1 as the spec says; `15` normalizes to 10 and
`"nine"` to 5. -/
theorem score_normalization (q : ℚ) (hq : q ≠ 0) :
    normalizeScore (some (JsonValue.num q)) = mathMin 10 (mathMax 1 q) ∧
    normalizeScore (some (JsonValue.num 0)) = 5 ∧
    normalizeScore none = 5 ∧
    normalizeScore (some (JsonValue.str ("nine".toList))) = 5 ∧
    parseReviewOutput scoreFifteenText =
      some { findings := [], summary := [], score := 10 } ∧
    parseReviewOutput scoreNineText =
      some { findings := [], summary := [], score := 5 } ∧
    parseReviewOutput scoreZeroText =
      some { findings := [], summary := [], score := 5 } := by
  refine ⟨?_, by decide, by decide, by decide, by decide, by decide, by decide⟩
  simp only [normalizeScore, jsToNumber]
  rw [if_neg hq]

/-- Counterexample for C4 as stated: an input score of `0` normalizes to
5, not 1. -/
theorem score_zero_counterexample :
    parseReviewOutput scoreZeroText =
      some { findings := [], summary := [], score := 5 } ∧
    ¬ (5 : ℚ) = 1 := by
  decide

/-- Witness for C4 (corrected) at the nonzero score 7. -/
theorem score_normalization_witness :
    ¬ (7 : ℚ) = 0 ∧
    normalizeScore (some (JsonValue.num 7)) = mathMin 10 (mathMax 1 7) :=
  ⟨by decide, (score_normalization 7 (by decide)).1⟩

/- ============================================================
   Theorems: final-output extraction (C8)
   ============================================================ -/

theorem finalOutputRev_findSome (l : List Message) :
    finalOutputRev l =
      (l.findSome? (fun m =>
        if m.role = "assistant".toList then firstTextPart m.content
        else none)).getD [] := by
  induction l with
  | nil => rfl
  | cons m rest ih =>
    unfold finalOutputRev
    rw [List.findSome?_cons]
    by_cases hr : m.role = "assistant".toList
    · rw [if_pos hr, if_pos hr]
      cases firstTextPart m.content with
      | none => exact ih
      | some s => rfl
    · rw [if_neg hr, if_neg hr]
      exact ih

/-- C8 (corrected): the final-output extraction returns the first text
part of the last assistant message *that has a text part* (scanning from
the end, and skipping past text-free assistant messages), and the empty
string when no assistant message is present. -/
theorem getFinalOutput_characterization :
    (∀ messages : List Message,
      getFinalOutput messages =
        (messages.reverse.findSome? (fun m =>
          if m.role = "assistant".toList then firstTextPart m.content
          else none)).getD []) ∧
    (∀ messages : List Message,
      (∀ m ∈ messages, ¬ m.role = "assistant".toList) →
      getFinalOutput messages = []) := by
  constructor
  · intro messages
    exact finalOutputRev_findSome messages.reverse
  · intro messages h
    rw [getFinalOutput, finalOutputRev_findSome]
    have hn : messages.reverse.findSome? (fun m =>
        if m.role = "assistant".toList then firstTextPart m.content
        else none) = none := by
      rw [List.findSome?_eq_none_iff]
      intro m hm
      rw [if_neg (h m (List.mem_reverse.mp hm))]
    rw [hn]
    rfl

/-- Counterexample for C8 as stated: with a trailing text-free assistant
message the code returns the text of an *earlier* assistant message, while
the last assistant message itself has no text. -/
theorem getFinalOutput_counterexample :
    getFinalOutput trailingToolMessages = "hello".toList ∧
    lastAssistantText trailingToolMessages = [] ∧
    ¬ getFinalOutput trailingToolMessages =
      lastAssistantText trailingToolMessages := by
  decide

/-- Witness for C8 (corrected): a history with only a user message yields
the empty string. -/
theorem getFinalOutput_characterization_witness :
    (∀ m ∈ [Message.mk ("user".toList) [MsgPart.text ("hi".toList)]],
      ¬ m.role = "assistant".toList) ∧
    getFinalOutput [Message.mk ("user".toList) [MsgPart.text ("hi".toList)]] = [] :=
  ⟨by decide,
   getFinalOutput_characterization.2
     [Message.mk ("user".toList) [MsgPart.text ("hi".toList)]] (by decide)⟩

/- ============================================================
   Theorems: the no-issues report line (C10)
   ============================================================ -/

/-- C10: with an empty consolidated findings list the report always
contains the no-issues line — also when every agent failed (null output),
in which case the aggregated failed-agents note line is present too; no
successful agent is required for the no-issues message. -/
theorem report_no_issues (results : List ReviewAgentResult)
    (branch baseBranch : Str) (fc cc ta : ℕ) :
    (noIssuesLine <:+:
      formatReport results [] branch baseBranch fc cc ta) ∧
    ((∀ r ∈ results, r.output = none) → ¬ results = [] →
      ("> **Note:** ".toList ++ natToStr results.length ++
          " agent(s) failed: ".toList) <:+:
        formatReport results [] branch baseBranch fc cc ta) := by
  constructor
  · refine ⟨reportHeader (results.filter (fun r => r.output.isSome)) branch
        baseBranch fc cc ++
      (if 0 < (results.filter (fun r => r.output.isNone)).length then
        failedNote (results.filter (fun r => r.output.isNone))
      else []),
      reportRest (results.filter (fun r => r.output.isSome)) [] ta, ?_⟩
    unfold formatReport
    simp [List.append_assoc]
  · intro hall hne
    have hfail : results.filter (fun r => r.output.isNone) = results := by
      rw [List.filter_eq_self]
      intro r hr
      simp [hall r hr]
    have hlen : 0 < (results.filter (fun r => r.output.isNone)).length := by
      rw [hfail]
      cases results with
      | nil => exact absurd rfl hne
      | cons a as => simp
    refine ⟨reportHeader (results.filter (fun r => r.output.isSome)) branch
        baseBranch fc cc,
      (joinStr (", ".toList) (results.map (fun r =>
        r.displayName ++ " (".toList ++
          (match r.error with
           | some e => if e ≠ [] then e else "unknown error".toList
           | none => "unknown error".toList) ++ ")".toList)) ++
        "\n\n".toList) ++
      ((if ([] : List ConsolidatedFinding).length = 0 then noIssuesLine
        else []) ++
       reportRest (results.filter (fun r => r.output.isSome)) [] ta), ?_⟩
    unfold formatReport
    rw [if_pos hlen, hfail]
    unfold failedNote
    simp [List.append_assoc]

/-- Witness for C10: one failed agent, no findings — the report contains
both the note line and the no-issues line. -/
theorem report_no_issues_witness :
    (∀ r ∈ [failedAgentResult], r.output = none) ∧
    ("> **Note:** ".toList ++ natToStr [failedAgentResult].length ++
        " agent(s) failed: ".toList) <:+:
      formatReport [failedAgentResult] [] ("b".toList) ("m".toList) 1 2 3 :=
  ⟨by decide,
   (report_no_issues [failedAgentResult] ("b".toList) ("m".toList) 1 2 3).2
     (by decide) (by decide)⟩

end Wyebot
